import Mathlib

/-!
# DoodleDash backend — verification of the session layer

Shallow embedding of the DoodleDash Go backend (rooms, players, guess
validation, scoring, round lifecycle handlers and their outbound frames),
translated from `internal/models/room.go`, `internal/models/user.go`,
`internal/config/config.go` (the `handlers` round-lifecycle file),
`internal/handlers/websocket.go`, `internal/services` (game engine,
room manager) and `pkg/utils`.

Modelling conventions:
* Go `int` is modelled as `Int`. Go `float64` arithmetic in the scoring
  engine is modelled bit-exactly: every float is carried as the exact
  rational it denotes (`Frac`), and each operation rounds its exact
  result to the nearest IEEE-754 binary64 value, ties to even (`roundF`),
  with Go's `int(x)` conversion as truncation toward zero (`Frac.trunc`).
  Subnormal underflow, overflow and division by zero are not modelled —
  the scoring inputs keep every intermediate well inside the normal
  range. String helpers (`ToLower`, `TrimSpace`, …) are modelled
  characterwise.
* `time.Time` values are modelled as integer seconds; operations that read
  the clock take an explicit `now : Int` argument.
* Go maps iterate in an unspecified order; where the code ranges over
  `room.Players`, the iteration order is taken as an explicit list
  argument (or the join-ordered player list as one possible order).
-/

set_option maxRecDepth 16384
set_option maxHeartbeats 4000000

namespace DoodleDash

/-- An exact, unnormalized fraction of integers: the value carrier for
all scoring arithmetic. Spec-side expressions use the exact fraction
operations below; the engine's `float64` arithmetic is modelled by
rounding each exact result to the nearest binary64 value (`roundF`).
No normalization is needed, so every operation is plain `Int` arithmetic
and kernel-computable. -/
structure Frac where
  num : Int
  den : Int
deriving Repr, DecidableEq

/-- The exact fraction `n / 1`. -/
def Frac.ofInt (n : Int) : Frac := ⟨n, 1⟩

/-- The literal `1.0` (exactly representable in binary64). -/
def Frac.one : Frac := ⟨1, 1⟩

/-- Exact fraction multiplication. -/
def Frac.mul (a b : Frac) : Frac := ⟨a.num * b.num, a.den * b.den⟩

/-- Exact fraction subtraction. -/
def Frac.sub (a b : Frac) : Frac :=
  ⟨a.num * b.den - b.num * a.den, a.den * b.den⟩

/-- Exact fraction division. -/
def Frac.div (a b : Frac) : Frac := ⟨a.num * b.den, a.den * b.num⟩

/-- Go `int(x)` conversion of a `float64`: truncation toward zero. -/
def Frac.trunc (a : Frac) : Int := a.num.tdiv a.den

/-- The rational value of a fraction. -/
def Frac.toRat (a : Frac) : ℚ := (a.num : ℚ) / (a.den : ℚ)

/-- Bit length of a natural number, with explicit fuel so that kernel
reduction is structural: `natBits f 0 = 0`, `natBits f 1 = 1`, and
`natBits (f+1) n = natBits f (n / 2) + 1` for `n ≥ 2`. -/
def natBits (fuel n : Nat) : Nat :=
  match fuel with
  | 0 => 0
  | fuel + 1 => if n ≤ 1 then n else natBits fuel (n / 2) + 1

/-- Round-to-nearest, ties-to-even, of the positive rational `p / q` to
53 significant bits: returns `(m, E)` with `2^52 ≤ m ≤ 2^53` such that
`m · 2^(E−52)` is the IEEE-754 binary64 rounding of `p / q` (normal
range). `E` is the exponent with `2^E ≤ p/q < 2^(E+1)`, found from the
bit lengths of `p` and `q`; `m` is the integer nearest to
`p/q · 2^(52−E)`, ties to even. -/
def roundPosAux (p q : Nat) : Nat × Int :=
  let e0 : Int := (natBits 200 p : Int) - (natBits 200 q : Int)
  let E : Int := if p * 2 ^ (-e0).toNat ≥ q * 2 ^ e0.toNat then e0 else e0 - 1
  let num := p * 2 ^ (52 - E).toNat
  let den := q * 2 ^ (E - 52).toNat
  let m0 := num / den
  let r := num % den
  let m := if 2 * r < den then m0
    else if 2 * r > den then m0 + 1
    else if m0 % 2 = 0 then m0 else m0 + 1
  (m, E)

/-- The IEEE-754 binary64 (`float64`) value nearest to the rational `x`,
ties to even, returned as the exact fraction it denotes. Subnormal
underflow, overflow and division by zero are not modelled: on the scoring
engine's operating inputs every intermediate lies well inside the normal
range. -/
def roundF (x : Frac) : Frac :=
  let p := x.num.natAbs
  let q := x.den.natAbs
  if p = 0 ∨ q = 0 then ⟨0, 1⟩
  else
    let s : Int := if (0 ≤ x.num ∧ 0 ≤ x.den) ∨ (x.num < 0 ∧ x.den < 0)
      then 1 else -1
    let me := roundPosAux p q
    if 52 ≤ me.2 then ⟨s * (me.1 : Int) * 2 ^ (me.2 - 52).toNat, 1⟩
    else ⟨s * (me.1 : Int), (2 : Int) ^ (52 - me.2).toNat⟩

/-- Go's `float64(n)` conversion (exact for `|n| < 2^53`). -/
def fofInt (n : Int) : Frac := roundF ⟨n, 1⟩

/-- `float64` division: the exact quotient, rounded to binary64. -/
def fdiv (a b : Frac) : Frac := roundF (a.div b)

/-- `float64` subtraction: the exact difference, rounded to binary64. -/
def fsub (a b : Frac) : Frac := roundF (a.sub b)

/-- `float64` multiplication: the exact product, rounded to binary64. -/
def fmul (a b : Frac) : Frac := roundF (a.mul b)

/-- The scoring engine's bonus expression
`float64(B) * (1.0 − float64(a)/float64(b))`, with every operation
rounded to binary64 as Go computes it. -/
def bonusFloat (B a b : Int) : Frac :=
  fmul (fofInt B) (fsub Frac.one (fdiv (fofInt a) (fofInt b)))

/-- The exact (unrounded) rational value of the bonus expression
`B * (1 − a/b)`: the idealization that the spec's floor formula refers
to. The engine's actual `float64` computation of the same expression is
`bonusFloat`, which can truncate one lower. -/
def bonusFrac (B a b : Int) : Frac :=
  (Frac.ofInt B).mul (Frac.one.sub ((Frac.ofInt a).div (Frac.ofInt b)))

/-- `PointsConfig` from `internal/config/config.go`. -/
structure PointsConfig where
  baseGuessPoints : Int
  maxOrderBonus : Int
  maxDifficultyBonus : Int
  maxTimeBonus : Int
  drawerBasePoints : Int
  drawerBonusPerGuesser : Int
deriving Repr, DecidableEq

/-- The default points configuration (`GetDefaultConfig` in
`internal/config/config.go`, matching `configs/config.yaml`). -/
def defaultPoints : PointsConfig :=
  { baseGuessPoints := 100
    maxOrderBonus := 50
    maxDifficultyBonus := 100
    maxTimeBonus := 25
    drawerBasePoints := 20
    drawerBonusPerGuesser := 15 }

/-- `CalculateGuesserPoints` from the game engine
(`internal/services`, GameEngine): base points, then order, difficulty
and time bonuses each computed in `float64` (binary64,
round-to-nearest-even at every operation) and truncated to `int`, then
the difficulty multiplier (×1.25 for "medium", ×1.5 for "hard", nothing
otherwise) applied in `float64` and truncated. -/
def calculateGuesserPoints (cfg : PointsConfig) (guessOrder totalGuessers
    guessTime roundDuration totalPlayers : Int) (difficulty : String) : Int :=
  let p0 : Int := cfg.baseGuessPoints
  let orderBonus : Frac := bonusFloat cfg.maxOrderBonus (guessOrder - 1) totalPlayers
  let p1 : Int := p0 + orderBonus.trunc
  let difficultyBonus : Frac := bonusFloat cfg.maxDifficultyBonus totalGuessers totalPlayers
  let p2 : Int := p1 + difficultyBonus.trunc
  let timeBonus : Frac := bonusFloat cfg.maxTimeBonus guessTime roundDuration
  let p3 : Int := p2 + timeBonus.trunc
  if difficulty = "medium" then (fmul (fofInt p3) ⟨5, 4⟩).trunc
  else if difficulty = "hard" then (fmul (fofInt p3) ⟨3, 2⟩).trunc
  else p3

/-- The same scoring expression evaluated in exact rational arithmetic,
with truncation only where the source truncates: the computable form of
the spec's formula (proved equal to `specGuesserPoints` below), against
which the engine's `float64` computation is compared. -/
def exactGuesserPoints (cfg : PointsConfig) (guessOrder totalGuessers
    guessTime roundDuration totalPlayers : Int) (difficulty : String) : Int :=
  let p0 : Int := cfg.baseGuessPoints
  let orderBonus : Frac := bonusFrac cfg.maxOrderBonus (guessOrder - 1) totalPlayers
  let p1 : Int := p0 + orderBonus.trunc
  let difficultyBonus : Frac := bonusFrac cfg.maxDifficultyBonus totalGuessers totalPlayers
  let p2 : Int := p1 + difficultyBonus.trunc
  let timeBonus : Frac := bonusFrac cfg.maxTimeBonus guessTime roundDuration
  let p3 : Int := p2 + timeBonus.trunc
  if difficulty = "medium" then ((Frac.ofInt p3).mul ⟨5, 4⟩).trunc
  else if difficulty = "hard" then ((Frac.ofInt p3).mul ⟨3, 2⟩).trunc
  else p3

/-- `CalculateDrawerPoints` from the game engine: base plus a bonus per
correct guesser (the extra parameters are unused in the source too). -/
def calculateDrawerPoints (cfg : PointsConfig) (totalGuessers totalPlayers
    roundDuration : Int) : Int :=
  cfg.drawerBasePoints + totalGuessers * cfg.drawerBonusPerGuesser

/-- A player (`internal/models/user.go`). `guessTime` models the
`GuessTime : time.Time` field as integer seconds (0 = zero value);
`joinedAt` likewise. -/
structure User where
  id : String
  username : String
  avatar : String
  score : Int
  isReady : Bool
  isConnected : Bool
  joinedAt : Int
  hasGuessedThisRound : Bool
  guessTime : Int
  guessOrder : Int
  roundsWon : Int
  totalGuesses : Int
  correctGuesses : Int
  timesDrawer : Int
deriving Repr, DecidableEq

/-- `User.AddScore`. -/
def User.addScore (u : User) (points : Int) : User :=
  { u with score := u.score + points }

/-- `User.SetReady`. -/
def User.setReady (u : User) (ready : Bool) : User :=
  { u with isReady := ready }

/-- `User.RecordGuess`: marks the round guessed, stamps the guess time,
counts the attempt; on a correct guess also counts it and stores the
order. -/
def User.recordGuess (u : User) (now : Int) (correct : Bool)
    (guessOrder : Int) : User :=
  let u1 := { u with hasGuessedThisRound := true, guessTime := now,
                     totalGuesses := u.totalGuesses + 1 }
  if correct then
    { u1 with correctGuesses := u1.correctGuesses + 1, guessOrder := guessOrder }
  else u1

/-- `User.RecordDrawerTurn`. -/
def User.recordDrawerTurn (u : User) : User :=
  { u with timesDrawer := u.timesDrawer + 1 }

/-- `User.ResetRoundData`: clears the per-round flags (and the ready
flag). -/
def User.resetRoundData (u : User) : User :=
  { u with hasGuessedThisRound := false, guessTime := 0, guessOrder := 0,
           isReady := false }

/-- `User.GetAccuracy` (float64 in Go, exact fraction here). -/
def User.getAccuracy (u : User) : Frac :=
  if u.totalGuesses = 0 then Frac.ofInt 0
  else ((Frac.ofInt u.correctGuesses).div (Frac.ofInt u.totalGuesses)).mul
    (Frac.ofInt 100)

/-- `PublicUser` (`internal/models/user.go`). -/
structure PublicUser where
  id : String
  username : String
  avatar : String
  score : Int
  isReady : Bool
  isConnected : Bool
  hasGuessedThisRound : Bool
  roundsWon : Int
  accuracy : Frac
deriving Repr, DecidableEq

/-- `User.ToPublicUser`. -/
def User.toPublicUser (u : User) : PublicUser :=
  { id := u.id, username := u.username, avatar := u.avatar, score := u.score,
    isReady := u.isReady, isConnected := u.isConnected,
    hasGuessedThisRound := u.hasGuessedThisRound, roundsWon := u.roundsWon,
    accuracy := u.getAccuracy }

/-- `GameState` (`internal/models/room.go`). -/
inductive GameState | lobby | starting | playing | ended
deriving Repr, DecidableEq

/-- `GamePhase` (`internal/models/room.go`). -/
inductive GamePhase | waiting | drawing | guessing | results
deriving Repr, DecidableEq

/-- `DrawCommand` (`internal/models/room.go`); float64 coordinates as ℚ. -/
structure DrawCommand where
  type : String
  x : Frac
  y : Frac
  color : String
  size : Frac
  timestamp : Int
deriving Repr, DecidableEq

/-- A game room (`internal/models/room.go`). The Go `Players` map together
with its join-ordered `PlayerOrder` slice is modelled as `players`, a list
of users in join order, plus `playerOrder`, the list of their ids; map
lookup is search by id. -/
structure Room where
  id : String
  code : String
  name : String
  hostID : String
  maxPlayers : Int
  roundTime : Int
  maxRounds : Int
  difficulty : String
  state : GameState
  phase : GamePhase
  currentRound : Int
  roundStartTime : Int
  roundEndTime : Int
  players : List User
  playerOrder : List String
  currentDrawer : String
  currentWord : String
  wordHint : String
  guessedPlayers : List String
  drawingData : List DrawCommand
  lastActivity : Int
deriving Repr, DecidableEq

/-- `Room.GetPlayer`: map lookup by user id. -/
def Room.getPlayer (r : Room) (uid : String) : Option User :=
  r.players.find? (fun u => u.id = uid)

/-- Replaces the player with the given id (models mutation through the
`*User` pointer stored in the `Players` map). -/
def Room.updatePlayer (r : Room) (uid : String) (f : User → User) : Room :=
  { r with players := r.players.map (fun u => if u.id = uid then f u else u) }

/-- `Room.AddPlayer`: rejected when the room is full or the user is already
present; otherwise appended to `players` and to the end of `playerOrder`. -/
def Room.addPlayer (r : Room) (u : User) (now : Int) : Room × Bool :=
  if (r.players.length : Int) ≥ r.maxPlayers then (r, false)
  else if (r.getPlayer u.id).isSome then (r, false)
  else ({ r with players := r.players ++ [u],
                 playerOrder := r.playerOrder ++ [u.id],
                 lastActivity := now }, true)

/-- `Room.assignNewHost`: first entry of `playerOrder` still present. -/
def Room.assignNewHost (r : Room) : Room :=
  if r.players.length = 0 then { r with hostID := "" }
  else
    match r.playerOrder.find? (fun pid => (r.getPlayer pid).isSome) with
    | some pid => { r with hostID := pid }
    | none => r

/-- `Room.RemovePlayer`. -/
def Room.removePlayer (r : Room) (uid : String) (now : Int) : Room × Bool :=
  if (r.getPlayer uid).isNone then (r, false)
  else
    let r1 := { r with players := r.players.filter (fun u => ¬ u.id = uid),
                       playerOrder := r.playerOrder.erase uid,
                       guessedPlayers := r.guessedPlayers.erase uid }
    let r2 := if r.hostID = uid ∧ r1.players.length > 0
              then r1.assignNewHost else r1
    ({ r2 with lastActivity := now }, true)

/-- `Room.CanStart`: lobby, at least two players, everyone ready. -/
def Room.canStart (r : Room) : Bool :=
  r.state = GameState.lobby ∧ r.players.length ≥ 2 ∧
    r.players.all (fun p => p.isReady)

/-- `Room.StartGame`: enters Playing/Drawing at round 1, resets per-round
player data and sets the first drawer to `playerOrder[0]`. -/
def Room.startGame (r : Room) (now : Int) : Room :=
  let r1 := { r with state := GameState.playing, phase := GamePhase.drawing,
                     currentRound := 1, lastActivity := now,
                     players := r.players.map User.resetRoundData }
  match r1.playerOrder with
  | [] => r1
  | d :: _ => { r1 with currentDrawer := d }

/-- `Room.selectNextDrawer`: index of the current drawer in `playerOrder`
(−1 when absent), advanced by one with wrap-around. -/
def Room.selectNextDrawer (r : Room) : Room :=
  if r.playerOrder.length = 0 then r
  else
    let currentIndex : Int :=
      match r.playerOrder.findIdx? (fun pid => pid = r.currentDrawer) with
      | some i => (i : Int)
      | none => -1
    let nextIndex : Int := (currentIndex + 1) % (r.playerOrder.length : Int)
    { r with currentDrawer := r.playerOrder.getD nextIndex.toNat "" }

/-- `Room.StartNewRound`: increments the round counter, stores word and
hint, resets the round clock, clears guesses and the drawing log, resets
per-round player data, and rotates the drawer. -/
def Room.startNewRound (r : Room) (word hint : String) (now : Int) : Room :=
  let r1 := { r with currentRound := r.currentRound + 1,
                     phase := GamePhase.drawing,
                     currentWord := word, wordHint := hint,
                     roundStartTime := now,
                     roundEndTime := now + r.roundTime,
                     guessedPlayers := [], drawingData := [],
                     lastActivity := now,
                     players := r.players.map User.resetRoundData }
  r1.selectNextDrawer

/-- `Room.EndRound`: moves to the Results phase. -/
def Room.endRound (r : Room) (now : Int) : Room :=
  { r with phase := GamePhase.results, lastActivity := now }

/-- `Room.EndGame`: back to a fresh lobby; per-round data and ready flags
cleared for every player. -/
def Room.endGame (r : Room) (now : Int) : Room :=
  { r with state := GameState.lobby, phase := GamePhase.waiting,
           currentRound := 0, currentDrawer := "", currentWord := "",
           wordHint := "", guessedPlayers := [], drawingData := [],
           lastActivity := now,
           players := r.players.map
             (fun u => (u.resetRoundData).setReady false) }

/-- `Room.AddGuess`: idempotent insert into `guessedPlayers`. -/
def Room.addGuess (r : Room) (uid : String) (now : Int) : Room × Bool :=
  if uid ∈ r.guessedPlayers then (r, false)
  else ({ r with guessedPlayers := r.guessedPlayers ++ [uid],
                 lastActivity := now }, true)

/-- `Room.GetTimeLeft` (integer seconds). -/
def Room.getTimeLeft (r : Room) (now : Int) : Int :=
  if r.roundEndTime = 0 then 0
  else if r.roundEndTime - now < 0 then 0 else r.roundEndTime - now

/-- `Room.AddDrawCommand`. -/
def Room.addDrawCommand (r : Room) (cmd : DrawCommand) (now : Int) : Room :=
  { r with drawingData := r.drawingData ++ [{ cmd with timestamp := now }],
           lastActivity := now }

/-- `Room.ClearDrawing`. -/
def Room.clearDrawing (r : Room) (now : Int) : Room :=
  { r with drawingData := [], lastActivity := now }

/-- `Room.IsFull`. -/
def Room.isFull (r : Room) : Bool :=
  (r.players.length : Int) ≥ r.maxPlayers

/-- `strings.ToLower`, modelled characterwise over the string's
characters (agrees with Go on the ASCII data used here). -/
def goToLower (s : String) : String := String.mk (s.data.map Char.toLower)

/-- `strings.ToUpper`, modelled characterwise. -/
def goToUpper (s : String) : String := String.mk (s.data.map Char.toUpper)

/-- `strings.TrimSpace`: whitespace removed from both ends. -/
def goTrimSpace (s : String) : String :=
  String.mk (((s.data.dropWhile Char.isWhitespace).reverse.dropWhile
    Char.isWhitespace).reverse)

/-- `utils.SanitizeInput` (`src/unnamed/part_003`): strips the characters
`<ANGLE> <GT> & <QUOTE> <APOS>` and trims surrounding whitespace. -/
def sanitizeInput (s : String) : String :=
  goTrimSpace (String.mk (s.data.filter (fun c =>
    ¬ (c = '<' ∨ c = '>' ∨ c = '&' ∨ c = Char.ofNat 34 ∨
       c = Char.ofNat 39))))

/-- `GuessResultData` (`pkg/websocket`, `src/unnamed/part_004`). -/
structure GuessResultData where
  correct : Bool
  word : String
  points : Int
  totalScore : Int
  guessOrder : Int
  bonus : Int
  timeBonus : Int
  orderBonus : Int
  roundEnding : Bool
deriving Repr, DecidableEq

/-- The zero-valued incorrect result (`GuessResultData{Correct: false}`). -/
def GuessResultData.incorrect : GuessResultData :=
  ⟨false, "", 0, 0, 0, 0, 0, 0, false⟩

/-- `GameEngine.ValidateGuess` (`src/unnamed/part_002`): rejects missing
players, players who already guessed this round, and the current drawer;
compares the trimmed lower-cased guess against the trimmed lower-cased
current word; on a wrong guess records a failed attempt; on a correct guess
assigns the order, computes points, updates the user, adds to
`guessedPlayers`, and reports the bonuses (recomputed from the updated
room, as in the source) and whether the round is now ending. -/
def validateGuess (cfg : PointsConfig) (r : Room) (uid guess : String)
    (now : Int) : Room × GuessResultData :=
  match r.getPlayer uid with
  | none => (r, GuessResultData.incorrect)
  | some user =>
    if user.hasGuessedThisRound ∨ uid = r.currentDrawer then
      (r, GuessResultData.incorrect)
    else
      let g := goToLower (goTrimSpace guess)
      let w := goToLower (goTrimSpace r.currentWord)
      if ¬ g = w then
        (r.updatePlayer uid (fun u => u.recordGuess now false 0),
         GuessResultData.incorrect)
      else
        let guessOrder : Int := (r.guessedPlayers.length : Int) + 1
        let guessTime : Int := now - r.roundStartTime
        let points := calculateGuesserPoints cfg guessOrder
          ((r.guessedPlayers.length : Int) + 1) guessTime r.roundTime
          (r.players.length : Int) r.difficulty
        let r1 := r.updatePlayer uid
          (fun u => (u.recordGuess now true guessOrder).addScore points)
        let r2 := (r1.addGuess uid now).1
        let orderBonus := (bonusFloat cfg.maxOrderBonus (guessOrder - 1)
          (r2.players.length : Int)).trunc
        let difficultyBonus := (bonusFloat cfg.maxDifficultyBonus
          (r2.guessedPlayers.length : Int) (r2.players.length : Int)).trunc
        let timeBonus := (bonusFloat cfg.maxTimeBonus guessTime
          r2.roundTime).trunc
        let roundEnding :=
          (r2.guessedPlayers.length : Int) = (r2.players.length : Int) - 1 ∨
            r2.getTimeLeft now ≤ 0
        let totalScore := ((r2.getPlayer uid).map User.score).getD 0
        (r2, ⟨true, r.currentWord, points, totalScore, guessOrder,
              difficultyBonus, timeBonus, orderBonus, roundEnding⟩)

/-- Payload of a `chat_message` frame. -/
structure ChatData where
  username : String
  text : String
  isSystem : Bool
deriving Repr, DecidableEq

/-- Payload of a `points_awarded` frame. -/
structure PointsAwardedData where
  userID : String
  username : String
  points : Int
  totalScore : Int
  reason : String
deriving Repr, DecidableEq

/-- Payload of a `new_round` frame (`NewRoundData` in `pkg/websocket`);
`word` is the empty string when the field is omitted. -/
structure NewRoundData where
  round : Int
  maxRounds : Int
  drawerID : String
  drawerName : String
  wordHint : String
  timeLimit : Int
  word : String
deriving Repr, DecidableEq

/-- One entry of `round_ended.guessers` (`GuesserResult`). -/
structure GuesserResult where
  userID : String
  username : String
  guessed : Bool
  points : Int
  guessOrder : Int
  guessTime : Int
deriving Repr, DecidableEq

/-- Payload of a `round_ended` frame (`RoundEndData`). -/
structure RoundEndData where
  word : String
  drawerID : String
  drawerName : String
  drawerPoints : Int
  guessers : List GuesserResult
  leaderboard : List PublicUser
  nextRound : Int
deriving Repr, DecidableEq

/-- An outbound frame (the server→client message types the session layer
emits that matter here). -/
inductive Frame where
  | chatMessage (d : ChatData)
  | guessResult (d : GuessResultData)
  | pointsAwarded (d : PointsAwardedData)
  | leaderboardMsg (players : List PublicUser) (currentRound maxRounds : Int)
  | newRound (d : NewRoundData)
  | roundEnded (d : RoundEndData)
  | gameStarted
  | gameEnded (winner : Option PublicUser) (leaderboard : List PublicUser)
  | errorMsg (text code : String)
deriving Repr, DecidableEq

/-- Routing of an outbound frame: unicast (`client.SendMessage` /
`SendToUser`), room broadcast, or room broadcast excluding one client. -/
inductive Recipient where
  | toUser (uid : String)
  | toRoom (roomID : String)
  | toRoomExcept (roomID uid : String)
deriving Repr, DecidableEq

/-- One emitted frame together with its routing. -/
abbrev Emission := Recipient × Frame

/-- `getLeaderboard` (`internal/handlers/websocket.go`): the players —
ranged over in Go-map order, passed here explicitly as `iter` — projected
to public users and sorted by score descending with `sort.Slice`. The sort
is modelled as an insertion sort agreeing with the comparator
`score_i > score_j`; no further tie-break is applied, as in the source. -/
def insertByScoreDesc (x : PublicUser) : List PublicUser → List PublicUser
  | [] => [x]
  | y :: ys => if x.score > y.score then x :: y :: ys
               else y :: insertByScoreDesc x ys

/-- Sorting step of `getLeaderboard`; see `insertByScoreDesc`. -/
def sortByScoreDesc : List PublicUser → List PublicUser
  | [] => []
  | x :: xs => insertByScoreDesc x (sortByScoreDesc xs)

/-- `getLeaderboard` over an explicit map-iteration order. -/
def getLeaderboard (iter : List User) : List PublicUser :=
  sortByScoreDesc (iter.map User.toPublicUser)

/-- The winner fold of `HandleGameEnd` (`internal/config/config.go`,
handlers part): ranges over the players in map order, keeping the first
player whose score strictly exceeds the best seen so far (initially 0). -/
def computeWinner (iter : List User) : Option PublicUser :=
  (iter.foldl
    (fun acc p => if p.score > acc.2 then (some p.toPublicUser, p.score) else acc)
    ((none : Option PublicUser), (0 : Int))).1

/-- What a handler asks the round lifecycle to do next. The Go handlers
call each other directly (`HandleRoundEnd` → `HandleNewRound`,
`HandleNewRound` on a missing drawer → `HandleRoundEnd`); that mutual
recursion is rendered here as a returned continuation request. -/
inductive NextAction where
  | finished
  | nextRound
  | roundEnd
deriving Repr, DecidableEq

/-- `HandleGameEnd`: computes the winner and leaderboard over the players
(map order modelled by the join-ordered list), resets the room to a fresh
lobby, and broadcasts `game_ended`. The float-valued aggregate statistics
of `GameStats` are not carried in the modelled frame. -/
def handleGameEnd (r : Room) (now : Int) : Room × List Emission :=
  let winner := computeWinner r.players
  let leaderboard := getLeaderboard r.players
  let r1 := r.endGame now
  (r1, [(Recipient.toRoom r.id, Frame.gameEnded winner leaderboard)])

/-- `HandleRoundEnd` (`internal/config/config.go`, handlers part): awards
the drawer their points, rebuilds per-guesser result entries — recomputing
each guesser's points from the final state with
`CalculateGuesserPoints(guessOrder, |guessedPlayers|, guessTime, …)` —
appends the non-guessers, broadcasts `round_ended` after `EndRound`
(called once directly and once through the engine), and either ends the
game inline or requests the next round. -/
def handleRoundEnd (cfg : PointsConfig) (r : Room) (now : Int) :
    Room × List Emission × NextAction :=
  let drawerPoints := calculateDrawerPoints cfg (r.guessedPlayers.length : Int)
    (r.players.length : Int) r.roundTime
  let r1 := if (r.getPlayer r.currentDrawer).isSome then
      r.updatePlayer r.currentDrawer
        (fun u => (u.addScore drawerPoints).recordDrawerTurn)
    else r
  let guessedEntries : List GuesserResult := r1.guessedPlayers.filterMap
    (fun uid => (r1.getPlayer uid).map (fun p =>
      let pts : Int := if p.guessOrder > 0 then
          calculateGuesserPoints cfg p.guessOrder
            (r1.guessedPlayers.length : Int) (p.guessTime - r1.roundStartTime)
            r1.roundTime (r1.players.length : Int) r1.difficulty
        else 0
      ⟨p.id, p.username, true, pts, p.guessOrder,
       p.guessTime - r1.roundStartTime⟩))
  let nonGuesserEntries : List GuesserResult :=
    (r1.players.filter (fun p =>
      ¬ p.id ∈ r1.guessedPlayers ∧ ¬ p.id = r1.currentDrawer)).map
      (fun p => ⟨p.id, p.username, false, 0, 0, 0⟩)
  let drawerName := ((r1.getPlayer r1.currentDrawer).map User.username).getD ""
  let data : RoundEndData :=
    ⟨r1.currentWord, r1.currentDrawer, drawerName, drawerPoints,
     guessedEntries ++ nonGuesserEntries, getLeaderboard r1.players,
     if r1.currentRound ≥ r1.maxRounds then 0 else r1.currentRound + 1⟩
  let r2 := (r1.endRound now).endRound now
  let roundFrame : Emission := (Recipient.toRoom r2.id, Frame.roundEnded data)
  if r2.currentRound ≥ r2.maxRounds then
    let (r3, es) := handleGameEnd r2 now
    (r3, roundFrame :: es, NextAction.finished)
  else
    (r2, [roundFrame], NextAction.nextRound)

/-- `HandleNewRound` (`internal/config/config.go`, handlers part): starts a
new round in the room, then sends a `new_round` frame to the drawer with
the word, and a `new_round` frame to everyone else with the word field
empty. If the drawer is missing it requests an immediate round end, as the
source does by calling `HandleRoundEnd`. The per-round timer goroutine is
not modelled. -/
def handleNewRound (r : Room) (word hint : String) (now : Int) :
    Room × List Emission × NextAction :=
  let r1 := r.startNewRound word hint now
  match r1.getPlayer r1.currentDrawer with
  | none => (r1, [], NextAction.roundEnd)
  | some drawer =>
    let drawerData : NewRoundData :=
      ⟨r1.currentRound, r1.maxRounds, r1.currentDrawer, drawer.username,
       r1.wordHint, r1.roundTime, r1.currentWord⟩
    let othersData : NewRoundData :=
      ⟨r1.currentRound, r1.maxRounds, r1.currentDrawer, drawer.username,
       r1.wordHint, r1.roundTime, ""⟩
    (r1, [(Recipient.toUser r1.currentDrawer, Frame.newRound drawerData),
          (Recipient.toRoomExcept r1.id r1.currentDrawer,
           Frame.newRound othersData)],
     NextAction.finished)

/-- `HandleGameStart` (`internal/config/config.go`, handlers part):
`room.StartGame()` is executed twice in the source (once directly and once
through `GameEngine.StartGame`), `game_started` is broadcast, and the first
round is begun through `HandleNewRound` with a word picked for the room's
difficulty (passed here explicitly). -/
def handleGameStart (r : Room) (word hint : String) (now : Int) :
    Room × List Emission × NextAction :=
  let r1 := (r.startGame now).startGame now
  let next := handleNewRound r1 word hint now
  (next.1, (Recipient.toRoom r1.id, Frame.gameStarted) :: next.2.1, next.2.2)

/-- `handleSendGuess` (`internal/handlers/websocket.go`): requires
Playing/Drawing, sanitizes the guess, broadcasts it verbatim as a
`chat_message` to the whole room, then validates it; on a correct guess
sends `guess_result` to the guesser and broadcasts `points_awarded` and the
leaderboard, and ends the round when the validation reported it ending. -/
def handleSendGuess (cfg : PointsConfig) (r : Room) (uid guess : String)
    (now : Int) : Room × List Emission × NextAction :=
  if ¬ (r.state = GameState.playing ∧ r.phase = GamePhase.drawing) then
    (r, [(Recipient.toUser uid,
          Frame.errorMsg "Game not in progress" "INVALID_STATE")],
     NextAction.finished)
  else
    let g := sanitizeInput guess
    let username := ((r.getPlayer uid).map User.username).getD ""
    let chat : Emission :=
      (Recipient.toRoom r.id, Frame.chatMessage ⟨username, g, false⟩)
    let step := validateGuess cfg r uid g now
    let r1 := step.1
    let result := step.2
    if ¬ result.correct then (r1, [chat], NextAction.finished)
    else
      let newScore := ((r1.getPlayer uid).map User.score).getD 0
      let es : List Emission := [chat,
        (Recipient.toUser uid, Frame.guessResult result),
        (Recipient.toRoom r.id, Frame.pointsAwarded
          ⟨uid, username, result.points, newScore, "Correct guess"⟩),
        (Recipient.toRoom r.id, Frame.leaderboardMsg
          (getLeaderboard r1.players) r1.currentRound r1.maxRounds)]
      if result.roundEnding then
        let next := handleRoundEnd cfg r1 now
        (next.1, es ++ next.2.1, next.2.2)
      else (r1, es, NextAction.finished)

/-- `RoomManager.JoinRoom` (`internal/services/room_manager.go`): fails on
a full room, otherwise delegates to `Room.AddPlayer`. -/
def roomManagerJoinRoom (r : Room) (u : User) (now : Int) : Room × Bool :=
  if r.isFull then (r, false) else r.addPlayer u now

/-- The outcome of `handleJoinRoom` (`internal/handlers/websocket.go`)
after the room has been found: the error code sent to the joining client,
if any. -/
def handleJoinRoomResult (r : Room) (u : User) (now : Int) :
    Room × Option String :=
  let step := roomManagerJoinRoom r u now
  if step.2 then (step.1, none) else (r, some "JOIN_FAILED")

/-- The character set of `generateRoomCode` in `internal/models/room.go` —
the generator actually used by `NewRoom`/`CreateRoom`. It contains the
confusable characters `O`, `0`, `I`, `1`. -/
def modelsRoomCodeCharset : List Char :=
  "ABCDEFGHIJKLMNOPQRSTUVWXYZ0123456789".data

/-- `generateRoomCode` from `internal/models/room.go`, parameterized by the
six values produced by `generateRandomInt(36)` (whose committed body is a
stub returning 0; real runs are meant to draw random values below 36, so
the draws are taken as inputs and reduced mod 36). -/
def generateRoomCodeWith (draws : List Nat) : String :=
  String.mk (((List.range 6).map (fun i => draws.getD i 0)).map
    (fun d => modelsRoomCodeCharset.getD (d % 36) 'A'))

/-- `generateRoomCode` exactly as committed: `generateRandomInt` always
returns 0, so every generated code is six copies of the charset's first
character. -/
def generateRoomCode : String :=
  generateRoomCodeWith [0, 0, 0, 0, 0, 0]

/-- The character set of `pkg/utils/room_code.go`, documented there as
"avoiding confusing characters like 0, O, I, 1"; it is the alphabet the
room-code validator accepts. -/
def utilsRoomCodeChars : List Char :=
  "ABCDEFGHIJKLMNPQRSTUVWXYZ23456789".data

/-- `utils.ValidateRoomCode`: length 6 and, after upper-casing, every
character in the confusable-free alphabet. -/
def validateRoomCode (code : String) : Bool :=
  code.length = 6 ∧ (goToUpper code).data.all (fun c => c ∈ utilsRoomCodeChars)

/-- `utils.NormalizeRoomCode`: trim then upper-case. -/
def normalizeRoomCode (code : String) : String :=
  goToUpper (goTrimSpace code)

/-- `NewRoom` (`internal/models/room.go`): a fresh lobby room. The
generated id and the six code draws are explicit parameters (the committed
random helpers are stubs); the code comes from `generateRoomCodeWith`. -/
def newRoom (id hostID name : String) (maxPlayers roundTime maxRounds : Int)
    (difficulty : String) (codeDraws : List Nat) (now : Int) : Room :=
  { id := id, code := generateRoomCodeWith codeDraws, name := name,
    hostID := hostID, maxPlayers := maxPlayers, roundTime := roundTime,
    maxRounds := maxRounds, difficulty := difficulty,
    state := GameState.lobby, phase := GamePhase.waiting, currentRound := 0,
    roundStartTime := 0, roundEndTime := 0, players := [], playerOrder := [],
    currentDrawer := "", currentWord := "", wordHint := "",
    guessedPlayers := [], drawingData := [], lastActivity := now }

/-- `RoomManager.CreateRoom` effect on the registry (modelled as the list
of live rooms): the freshly built room is inserted unconditionally — there
is no room-code collision check or regeneration in the source. -/
def createRoomRegistry (registry : List Room) (r : Room) : List Room :=
  registry ++ [r]

/-- The shape `NewRoom` gives every freshly created room (the fields the
invariants care about). -/
def Room.isFresh (r : Room) : Prop :=
  r.state = GameState.lobby ∧ r.phase = GamePhase.waiting ∧
    r.currentRound = 0 ∧ r.players = [] ∧ r.playerOrder = [] ∧
    r.currentDrawer = "" ∧ r.guessedPlayers = [] ∧ r.drawingData = []

/-- One session-layer operation on a room, as driven by the message
handlers and the round lifecycle: the transition relation over which the
reachable-state invariants are proved. `start_game` carries the
`CanStart` guard enforced by `handleStartGame`. -/
inductive RoomStep (cfg : PointsConfig) : Room → Room → Prop where
  | addPlayer (r : Room) (u : User) (now : Int) :
      RoomStep cfg r (r.addPlayer u now).1
  | removePlayer (r : Room) (uid : String) (now : Int) :
      RoomStep cfg r (r.removePlayer uid now).1
  | gameStart (r : Room) (word hint : String) (now : Int)
      (h : r.canStart = true) : RoomStep cfg r (handleGameStart r word hint now).1
  | newRound (r : Room) (word hint : String) (now : Int) :
      RoomStep cfg r (handleNewRound r word hint now).1
  | sendGuess (r : Room) (uid guess : String) (now : Int) :
      RoomStep cfg r (handleSendGuess cfg r uid guess now).1
  | roundEnd (r : Room) (now : Int) :
      RoomStep cfg r (handleRoundEnd cfg r now).1
  | gameEnd (r : Room) (now : Int) :
      RoomStep cfg r (handleGameEnd r now).1
  | drawCommand (r : Room) (cmd : DrawCommand) (now : Int) :
      RoomStep cfg r (r.addDrawCommand cmd now)
  | clearDraw (r : Room) (now : Int) :
      RoomStep cfg r (r.clearDrawing now)

/-- Rooms reachable from an initial room by session-layer operations. -/
def RoomReachable (cfg : PointsConfig) (r0 r : Room) : Prop :=
  Relation.ReflTransGen (RoomStep cfg) r0 r

/-- A connected, ready player with zeroed scores, for concrete scenarios. -/
def mkUser (id username : String) (joinedAt : Int) : User :=
  { id := id, username := username, avatar := "", score := 0,
    isReady := true, isConnected := true, joinedAt := joinedAt,
    hasGuessedThisRound := false, guessTime := 0, guessOrder := 0,
    roundsWon := 0, totalGuesses := 0, correctGuesses := 0, timesDrawer := 0 }

/-- Scenario player Alice (joined first, hosts the rooms below). -/
def aliceU : User := mkUser "alice" "Alice" 0

/-- Scenario player Bob (joined second). -/
def bobU : User := mkUser "bob" "Bob" 1

/-- Scenario player Carol (joined third). -/
def carolU : User := mkUser "carol" "Carol" 2

/-- The spec's S4 scenario mid-round: two players, Alice drawing the word
"cat", a 60-second round that started at time 0. -/
def s4room : Room :=
  { id := "room1", code := "ABCDEF", name := "Doodle", hostID := "alice",
    maxPlayers := 4, roundTime := 60, maxRounds := 2, difficulty := "easy",
    state := GameState.playing, phase := GamePhase.drawing, currentRound := 1,
    roundStartTime := 0, roundEndTime := 60,
    players := [aliceU, bobU], playerOrder := ["alice", "bob"],
    currentDrawer := "alice", currentWord := "cat", wordHint := "_ _ _ ",
    guessedPlayers := [], drawingData := [], lastActivity := 0 }

/-- A three-player mid-round room (Alice drawing "cat"), used to compare
awarded points with the totals later listed in `round_ended`. -/
def trioRoom : Room :=
  { id := "room2", code := "ABCDEG", name := "Trio", hostID := "alice",
    maxPlayers := 4, roundTime := 60, maxRounds := 5, difficulty := "easy",
    state := GameState.playing, phase := GamePhase.drawing, currentRound := 1,
    roundStartTime := 0, roundEndTime := 60,
    players := [aliceU, bobU, carolU], playerOrder := ["alice", "bob", "carol"],
    currentDrawer := "alice", currentWord := "cat", wordHint := "_ _ _ ",
    guessedPlayers := [], drawingData := [], lastActivity := 0 }

/-- A two-player lobby with everyone ready, about to start a game. -/
def lobbyRoom : Room :=
  { id := "room3", code := "ABCDEH", name := "Lobby", hostID := "alice",
    maxPlayers := 4, roundTime := 60, maxRounds := 2, difficulty := "easy",
    state := GameState.lobby, phase := GamePhase.waiting, currentRound := 0,
    roundStartTime := 0, roundEndTime := 0,
    players := [aliceU, bobU], playerOrder := ["alice", "bob"],
    currentDrawer := "", currentWord := "", wordHint := "",
    guessedPlayers := [], drawingData := [], lastActivity := 0 }

/-! ## Helper lemmas -/

/-- A bonus term `B·(1 − a/b)` is nonnegative when `0 ≤ B`, `a ≤ b`,
`0 < b`. -/
theorem bonusTerm_nonneg {B a b : Int} (hB : 0 ≤ B) (hab : a ≤ b)
    (hb : 0 < b) : 0 ≤ (B : ℚ) * (1 - (a : ℚ) / (b : ℚ)) := by
  apply mul_nonneg (by exact_mod_cast hB)
  have hb' : (0 : ℚ) < (b : ℚ) := by exact_mod_cast hb
  have hd : (a : ℚ) / (b : ℚ) ≤ 1 := by
    rw [div_le_one hb']
    exact_mod_cast hab
  linarith

/-- Floor of an integer quotient of casts, for a positive denominator. -/
theorem floor_intCast_div_intCast (n d : Int) (hd : 0 < d) :
    ⌊((n : ℚ) / (d : ℚ))⌋ = n / d := by
  obtain ⟨m, rfl⟩ : ∃ m : ℕ, d = (m : Int) :=
    ⟨d.toNat, (Int.toNat_of_nonneg hd.le).symm⟩
  rw [show (((m : Int)) : ℚ) = (m : ℚ) by rw [Int.cast_natCast]]
  exact Rat.floor_intCast_div_natCast n m

/-- Go truncation of an exact fraction agrees with the rational floor when
the numerator is nonnegative and the denominator positive. -/
theorem Frac.trunc_eq_floor (a : Frac) (hnum : 0 ≤ a.num) (hden : 0 < a.den) :
    a.trunc = ⌊a.toRat⌋ := by
  unfold Frac.trunc Frac.toRat
  rw [Int.tdiv_eq_ediv hnum hden.le, floor_intCast_div_intCast _ _ hden]

/-- The shared bonus expression evaluates to the single fraction
`(B·(b−a)) / b`. -/
theorem bonusFrac_eval (B a b : Int) : bonusFrac B a b = ⟨B * (b - a), b⟩ := by
  unfold bonusFrac Frac.ofInt Frac.one Frac.mul Frac.sub Frac.div
  congr 1 <;> ring

/-- Truncating a bonus expression equals the spec's floored bonus when
`0 ≤ B`, `a ≤ b` and `0 < b`. -/
theorem bonusFrac_trunc_eq_floor (B a b : Int) (hB : 0 ≤ B) (hab : a ≤ b)
    (hb : 0 < b) :
    (bonusFrac B a b).trunc = ⌊(B : ℚ) * (1 - (a : ℚ) / (b : ℚ))⌋ := by
  rw [bonusFrac_eval,
    Frac.trunc_eq_floor _ (mul_nonneg hB (by omega)) hb]
  unfold Frac.toRat
  congr 1
  have hbQ : ((b : Int) : ℚ) ≠ 0 := by exact_mod_cast hb.ne'
  push_cast
  field_simp

/-- Truncating `float64(s) * (p/q)` equals the floored product for
`0 ≤ s`, `0 ≤ p`, `0 < q`. -/
theorem mulFrac_trunc_eq_floor (s p q : Int) (hs : 0 ≤ s) (hp : 0 ≤ p)
    (hq : 0 < q) :
    ((Frac.ofInt s).mul ⟨p, q⟩).trunc = ⌊(s : ℚ) * ((p : ℚ) / (q : ℚ))⌋ := by
  unfold Frac.ofInt Frac.mul
  rw [Frac.trunc_eq_floor _ (mul_nonneg hs hp) (by simpa using hq)]
  unfold Frac.toRat
  congr 1
  push_cast
  ring

/-! ## C3 — guesser scoring formula -/

/-- The difficulty multiplier as the spec words it: easy ×1.0,
medium ×1.25, hard ×1.5 (anything unrecognized behaves as easy, as in the
source's `switch`). -/
def specDifficultyMultiplier (difficulty : String) : ℚ :=
  if difficulty = "medium" then 5 / 4
  else if difficulty = "hard" then 3 / 2
  else 1

/-- The guesser-points formula exactly as the claim states it: base plus
the three floored bonuses, the sum then multiplied by the difficulty
multiplier and floored. -/
def specGuesserPoints (cfg : PointsConfig) (guessOrder totalGuessers
    guessTime roundDuration totalPlayers : Int) (difficulty : String) : Int :=
  ⌊((cfg.baseGuessPoints
      + ⌊(cfg.maxOrderBonus : ℚ) *
          (1 - ((guessOrder : ℚ) - 1) / (totalPlayers : ℚ))⌋
      + ⌊(cfg.maxDifficultyBonus : ℚ) *
          (1 - (totalGuessers : ℚ) / (totalPlayers : ℚ))⌋
      + ⌊(cfg.maxTimeBonus : ℚ) *
          (1 - (guessTime : ℚ) / (roundDuration : ℚ))⌋ : Int) : ℚ)
    * specDifficultyMultiplier difficulty⌋

/-- The exact-rational engine evaluation equals the spec's floor formula
for every configuration with nonnegative point constants and every
in-range guess (order between 1 and the player count, a guesser count at
most the player count, a guess time within the round). -/
theorem exactGuesserPoints_eq_spec (cfg : PointsConfig) (o g t T n : Int)
    (d : String)
    (hbase : 0 ≤ cfg.baseGuessPoints) (hord : 0 ≤ cfg.maxOrderBonus)
    (hdiff : 0 ≤ cfg.maxDifficultyBonus) (htime : 0 ≤ cfg.maxTimeBonus)
    (h1 : 1 ≤ o) (hon : o ≤ n) (hg0 : 0 ≤ g) (hgn : g ≤ n) (ht0 : 0 ≤ t)
    (htT : t ≤ T) (hn : 0 < n) (hT : 0 < T) :
    exactGuesserPoints cfg o g t T n d = specGuesserPoints cfg o g t T n d := by
  have hOrd : 0 ≤ (cfg.maxOrderBonus : ℚ) * (1 - ((o : ℚ) - 1) / (n : ℚ)) := by
    have h := bonusTerm_nonneg hord (show o - 1 ≤ n by omega) hn
    push_cast at h
    exact h
  have hDiff : 0 ≤ (cfg.maxDifficultyBonus : ℚ) * (1 - (g : ℚ) / (n : ℚ)) :=
    bonusTerm_nonneg hdiff hgn hn
  have hTime : 0 ≤ (cfg.maxTimeBonus : ℚ) * (1 - (t : ℚ) / (T : ℚ)) :=
    bonusTerm_nonneg htime htT hT
  have e1 : (bonusFrac cfg.maxOrderBonus (o - 1) n).trunc
      = ⌊(cfg.maxOrderBonus : ℚ) * (1 - ((o : ℚ) - 1) / (n : ℚ))⌋ := by
    rw [bonusFrac_trunc_eq_floor _ _ _ hord (by omega) hn]
    congr 2
    push_cast
    ring
  have e2 : (bonusFrac cfg.maxDifficultyBonus g n).trunc
      = ⌊(cfg.maxDifficultyBonus : ℚ) * (1 - (g : ℚ) / (n : ℚ))⌋ :=
    bonusFrac_trunc_eq_floor _ _ _ hdiff hgn hn
  have e3 : (bonusFrac cfg.maxTimeBonus t T).trunc
      = ⌊(cfg.maxTimeBonus : ℚ) * (1 - (t : ℚ) / (T : ℚ))⌋ :=
    bonusFrac_trunc_eq_floor _ _ _ htime htT hT
  have hsub : 0 ≤ cfg.baseGuessPoints
      + ⌊(cfg.maxOrderBonus : ℚ) * (1 - ((o : ℚ) - 1) / (n : ℚ))⌋
      + ⌊(cfg.maxDifficultyBonus : ℚ) * (1 - (g : ℚ) / (n : ℚ))⌋
      + ⌊(cfg.maxTimeBonus : ℚ) * (1 - (t : ℚ) / (T : ℚ))⌋ := by
    have f1 := Int.floor_nonneg.mpr hOrd
    have f2 := Int.floor_nonneg.mpr hDiff
    have f3 := Int.floor_nonneg.mpr hTime
    omega
  unfold exactGuesserPoints specGuesserPoints specDifficultyMultiplier
  simp only [e1, e2, e3]
  rcases eq_or_ne d "medium" with hmed | hmed
  · subst hmed
    rw [if_pos rfl, if_pos rfl,
      mulFrac_trunc_eq_floor _ _ _ hsub (by norm_num) (by norm_num)]
    norm_num
  · rcases eq_or_ne d "hard" with hhard | hhard
    · subst hhard
      rw [if_neg (by decide), if_pos rfl, if_neg (by decide), if_pos rfl,
        mulFrac_trunc_eq_floor _ _ _ hsub (by norm_num) (by norm_num)]
      norm_num
    · rw [if_neg hmed, if_neg hhard, if_neg hmed, if_neg hhard, mul_one,
        Int.floor_intCast]

/-- C3 (counterexample): with the default configuration, a first correct
guess (of two players, easy difficulty) 48 s into a 60 s round is awarded
204 points by the engine — `float64` evaluates `25*(1.0-48.0/60.0)` just
below 5 (the division rounds up to slightly above 0.8) and `int`
truncates the time bonus to 4 — while the claim's formula has
⌊25·(1−48/60)⌋ = 5 and totals 205. Likewise the 5th of 5 guessers' order
bonus is 9 in `float64` where the formula says ⌊50·(1−4/5)⌋ = 10. -/
theorem C3_counterexample :
    calculateGuesserPoints defaultPoints 1 1 48 60 2 "easy" = 204 ∧
    (bonusFloat 25 48 60).trunc = 4 ∧
    (bonusFrac 25 48 60).trunc = 5 ∧
    exactGuesserPoints defaultPoints 1 1 48 60 2 "easy" = 205 ∧
    specGuesserPoints defaultPoints 1 1 48 60 2 "easy" = 205 ∧
    (bonusFloat 50 4 5).trunc = 9 ∧
    (bonusFrac 50 4 5).trunc = 10 := by
  refine ⟨by decide, by decide, by decide, by decide, ?_, by decide, by decide⟩
  rw [← exactGuesserPoints_eq_spec defaultPoints 1 1 48 60 2 "easy"
    (by decide) (by decide) (by decide) (by decide) (by decide) (by decide)
    (by decide) (by decide) (by decide) (by decide) (by decide) (by decide)]
  decide

/-- C3 (amended): the engine evaluates each bonus in `float64`, which can
truncate one point below the spec's exact floored bonus but — on the
default configuration's operating ranges — never lands elsewhere: for
every guess time `t ≤ 60` of the 60-second round and every `a ≤ b ≤ 8`
order/guesser split, the truncated float bonus equals the exact truncated
bonus or that value minus one; the ×1.25/×1.5 difficulty multiplication
is exact in `float64` for every subtotal up to 300; the exact truncated
bonus is precisely the spec's rational floor whenever `0 ≤ B`, `a ≤ b`,
`0 < b`; and on the S4 data point (first guess of two players, 10 s into
an easy 60 s round) engine and formula agree on 220 points with bonuses
50/50/20, as `ValidateGuess` reports on the S4 room. -/
theorem C3_scoring_formula_amended :
    (∀ a : Nat, a ≤ 60 →
      (bonusFloat 25 (a : Int) 60).trunc = (bonusFrac 25 (a : Int) 60).trunc ∨
      (bonusFloat 25 (a : Int) 60).trunc
        = (bonusFrac 25 (a : Int) 60).trunc - 1) ∧
    (∀ b : Nat, b ≤ 8 → 0 < b → ∀ a : Nat, a ≤ b →
      ((bonusFloat 50 (a : Int) (b : Int)).trunc
          = (bonusFrac 50 (a : Int) (b : Int)).trunc ∨
        (bonusFloat 50 (a : Int) (b : Int)).trunc
          = (bonusFrac 50 (a : Int) (b : Int)).trunc - 1) ∧
      ((bonusFloat 100 (a : Int) (b : Int)).trunc
          = (bonusFrac 100 (a : Int) (b : Int)).trunc ∨
        (bonusFloat 100 (a : Int) (b : Int)).trunc
          = (bonusFrac 100 (a : Int) (b : Int)).trunc - 1)) ∧
    (∀ s : Nat, s ≤ 300 →
      (fmul (fofInt (s : Int)) ⟨5, 4⟩).trunc = (5 * (s : Int)).tdiv 4 ∧
      (fmul (fofInt (s : Int)) ⟨3, 2⟩).trunc = (3 * (s : Int)).tdiv 2) ∧
    (∀ B a b : Int, 0 ≤ B → a ≤ b → 0 < b →
      (bonusFrac B a b).trunc
        = ⌊(B : ℚ) * (1 - (a : ℚ) / (b : ℚ))⌋) ∧
    calculateGuesserPoints defaultPoints 1 1 10 60 2 "easy" = 220 ∧
    specGuesserPoints defaultPoints 1 1 10 60 2 "easy" = 220 ∧
    (validateGuess defaultPoints s4room "bob" "CAT" 10).2 =
      ⟨true, "cat", 220, 220, 1, 50, 20, 50, true⟩ := by
  refine ⟨?_, ?_, ?_, ?_, ?_, ?_, ?_⟩
  · decide
  · decide
  · decide
  · intro B a b hB hab hb
    exact bonusFrac_trunc_eq_floor B a b hB hab hb
  · decide
  · rw [← exactGuesserPoints_eq_spec defaultPoints 1 1 10 60 2 "easy"
      (by decide) (by decide) (by decide) (by decide) (by decide) (by decide)
      (by decide) (by decide) (by decide) (by decide) (by decide) (by decide)]
    decide
  · decide

/-- Witness for C3's amended theorem: the divergent t = 48 time bonus
(float 4 = exact 5 − 1), an exact multiplier instance at subtotal 275,
and the exact-to-spec bridge at the divergent point. -/
theorem C3_scoring_formula_amended_witness :
    ((bonusFloat 25 ((48 : Nat) : Int) 60).trunc
        = (bonusFrac 25 ((48 : Nat) : Int) 60).trunc ∨
      (bonusFloat 25 ((48 : Nat) : Int) 60).trunc
        = (bonusFrac 25 ((48 : Nat) : Int) 60).trunc - 1) ∧
    ((fmul (fofInt ((275 : Nat) : Int)) ⟨5, 4⟩).trunc
        = (5 * ((275 : Nat) : Int)).tdiv 4 ∧
      (fmul (fofInt ((275 : Nat) : Int)) ⟨3, 2⟩).trunc
        = (3 * ((275 : Nat) : Int)).tdiv 2) ∧
    (bonusFrac 25 48 60).trunc
      = ⌊((25 : Int) : ℚ) * (1 - ((48 : Int) : ℚ) / ((60 : Int) : ℚ))⌋ :=
  ⟨C3_scoring_formula_amended.1 48 (by decide),
   C3_scoring_formula_amended.2.2.1 275 (by decide),
   C3_scoring_formula_amended.2.2.2.1 25 48 60 (by decide) (by decide)
     (by decide)⟩

/-! ## Emission projections -/

/-- The `(round, drawer_id, word)` fields of the `new_round` frames in an
emission list. -/
def emittedNewRounds (es : List Emission) : List (Int × String × String) :=
  es.filterMap (fun e => match e.2 with
    | Frame.newRound d => some (d.round, d.drawerID, d.word)
    | _ => none)

/-- The `round_ended` payloads in an emission list. -/
def emittedRoundEnds (es : List Emission) : List RoundEndData :=
  es.filterMap (fun e => match e.2 with
    | Frame.roundEnded d => some d
    | _ => none)

/-- The `points_awarded` amounts in an emission list. -/
def emittedPointsAwards (es : List Emission) : List Int :=
  es.filterMap (fun e => match e.2 with
    | Frame.pointsAwarded d => some d.points
    | _ => none)

/-! ## C10 — end_game resets only game-progress state -/

/-- C10: `EndGame` resets the game-progress fields (state, phase, round
counter, drawer, word, hint, guessed players, drawing log) and each
player's ready flag and per-round data, while every player's accumulated
score, correct_guesses, total_guesses and times_drawer (and identity)
carry over unchanged into the fresh lobby. -/
theorem C10_end_game_preserves_scores (r : Room) (now : Int) :
    (r.endGame now).state = GameState.lobby ∧
    (r.endGame now).phase = GamePhase.waiting ∧
    (r.endGame now).currentRound = 0 ∧
    (r.endGame now).currentDrawer = "" ∧
    (r.endGame now).currentWord = "" ∧
    (r.endGame now).wordHint = "" ∧
    (r.endGame now).guessedPlayers = [] ∧
    (r.endGame now).drawingData = [] ∧
    (r.endGame now).players.map User.score = r.players.map User.score ∧
    (r.endGame now).players.map User.correctGuesses
      = r.players.map User.correctGuesses ∧
    (r.endGame now).players.map User.totalGuesses
      = r.players.map User.totalGuesses ∧
    (r.endGame now).players.map User.timesDrawer
      = r.players.map User.timesDrawer ∧
    (r.endGame now).players.map User.id = r.players.map User.id ∧
    (r.endGame now).players.map User.username = r.players.map User.username ∧
    ∀ u ∈ (r.endGame now).players,
      u.isReady = false ∧ u.hasGuessedThisRound = false ∧
        u.guessTime = 0 ∧ u.guessOrder = 0 := by
  refine ⟨rfl, rfl, rfl, rfl, rfl, rfl, rfl, rfl, ?_, ?_, ?_, ?_, ?_, ?_, ?_⟩
  · rw [show (r.endGame now).players
      = r.players.map (fun u => (u.resetRoundData).setReady false) from rfl,
      List.map_map]
    exact List.map_congr_left (fun a _ => rfl)
  · rw [show (r.endGame now).players
      = r.players.map (fun u => (u.resetRoundData).setReady false) from rfl,
      List.map_map]
    exact List.map_congr_left (fun a _ => rfl)
  · rw [show (r.endGame now).players
      = r.players.map (fun u => (u.resetRoundData).setReady false) from rfl,
      List.map_map]
    exact List.map_congr_left (fun a _ => rfl)
  · rw [show (r.endGame now).players
      = r.players.map (fun u => (u.resetRoundData).setReady false) from rfl,
      List.map_map]
    exact List.map_congr_left (fun a _ => rfl)
  · rw [show (r.endGame now).players
      = r.players.map (fun u => (u.resetRoundData).setReady false) from rfl,
      List.map_map]
    exact List.map_congr_left (fun a _ => rfl)
  · rw [show (r.endGame now).players
      = r.players.map (fun u => (u.resetRoundData).setReady false) from rfl,
      List.map_map]
    exact List.map_congr_left (fun a _ => rfl)
  · intro u hu
    rw [show (r.endGame now).players
      = r.players.map (fun u => (u.resetRoundData).setReady false) from rfl]
      at hu
    obtain ⟨v, _, rfl⟩ := List.mem_map.mp hu
    exact ⟨rfl, rfl, rfl, rfl⟩

/-! ## C2 — game start and the first round -/

/-- C2 (evaluation of the code at the failing input): in a two-player
lobby (join order Alice then Bob, everyone ready), `StartGame` itself sets
`currentRound = 1` and `currentDrawer = playerOrder[0] = "alice"`, but the
full `HandleGameStart` flow then runs `HandleNewRound` →
`StartNewRound`, which increments the round counter and rotates the
drawer, so the first round actually played is announced as round 2 with
drawer `playerOrder[1] = "bob"`. -/
theorem C2_first_round_eval :
    lobbyRoom.canStart = true ∧
    lobbyRoom.playerOrder = ["alice", "bob"] ∧
    (lobbyRoom.startGame 5).currentRound = 1 ∧
    (lobbyRoom.startGame 5).currentDrawer = "alice" ∧
    (handleGameStart lobbyRoom "cat" "_ _ _ " 5).1.state = GameState.playing ∧
    (handleGameStart lobbyRoom "cat" "_ _ _ " 5).1.currentRound = 2 ∧
    (handleGameStart lobbyRoom "cat" "_ _ _ " 5).1.currentDrawer = "bob" ∧
    emittedNewRounds (handleGameStart lobbyRoom "cat" "_ _ _ " 5).2.1
      = [(2, "bob", "cat"), (2, "bob", "")] := by
  decide

/-! ## C5 — room codes -/

/-- First room of the code-collision scenario (the committed
`generateRandomInt` stub makes every draw 0). -/
def c5roomA : Room := newRoom "room_a" "host_a" "RoomA" 8 60 5 "easy"
  [0, 0, 0, 0, 0, 0] 0

/-- Second room of the code-collision scenario. -/
def c5roomB : Room := newRoom "room_b" "host_b" "RoomB" 8 60 5 "easy"
  [0, 0, 0, 0, 0, 0] 1

/-- The registry after the two `CreateRoom` calls. -/
def c5registry : List Room := createRoomRegistry (createRoomRegistry [] c5roomA) c5roomB

/-- C5 (evaluation of the code at the failing inputs): room creation uses
`models.generateRoomCode`, whose charset still contains the confusable
characters `O`, `0`, `I`, `1` — a draw of 14 yields a code of `O`s, which
the repository's own `utils.ValidateRoomCode` (confusable-free alphabet)
rejects, so such a room could never be joined by code. (The utils
alphabet itself still contains `I`, contrary to its own "avoiding
confusing characters like 0, O, I, 1" comment.) Codes are always 6
characters, but `CreateRoom` performs no collision check: two successive
creations (with the committed stub generator, every code is "AAAAAA") put
two distinct live rooms with the same code into the registry. -/
theorem C5_room_code_eval :
    (generateRoomCodeWith [14, 14, 14, 14, 14, 14]).length = 6 ∧
    generateRoomCodeWith [14, 14, 14, 14, 14, 14] = "OOOOOO" ∧
    'O' ∈ modelsRoomCodeCharset ∧ '0' ∈ modelsRoomCodeCharset ∧
    'I' ∈ modelsRoomCodeCharset ∧ '1' ∈ modelsRoomCodeCharset ∧
    'O' ∉ utilsRoomCodeChars ∧ '0' ∉ utilsRoomCodeChars ∧
    '1' ∉ utilsRoomCodeChars ∧ 'I' ∈ utilsRoomCodeChars ∧
    validateRoomCode "OOOOOO" = false ∧
    generateRoomCode = "AAAAAA" ∧
    c5roomA ∈ c5registry ∧ c5roomB ∈ c5registry ∧
    c5roomA.id ≠ c5roomB.id ∧ c5roomA.code = c5roomB.code := by
  decide

/-! ## C1 — secret-word visibility -/

/-- Whether a frame's word-bearing payload fields carry the given string:
the chat text, a guess result's `word`, a new-round `word`, or a
round-ended `word`. -/
def Frame.mentionsWord (f : Frame) (w : String) : Bool :=
  match f with
  | Frame.chatMessage d => d.text = w
  | Frame.guessResult d => d.word = w
  | Frame.newRound d => d.word = w
  | Frame.roundEnded d => d.word = w
  | _ => false

/-- Fields of `selectNextDrawer`'s result other than the drawer are
untouched. -/
theorem selectNextDrawer_preserves (r : Room) :
    r.selectNextDrawer.players = r.players ∧
    r.selectNextDrawer.playerOrder = r.playerOrder ∧
    r.selectNextDrawer.state = r.state ∧
    r.selectNextDrawer.phase = r.phase ∧
    r.selectNextDrawer.guessedPlayers = r.guessedPlayers ∧
    r.selectNextDrawer.currentWord = r.currentWord ∧
    r.selectNextDrawer.currentRound = r.currentRound ∧
    r.selectNextDrawer.maxPlayers = r.maxPlayers ∧
    r.selectNextDrawer.maxRounds = r.maxRounds ∧
    r.selectNextDrawer.wordHint = r.wordHint ∧
    r.selectNextDrawer.roundTime = r.roundTime := by
  unfold Room.selectNextDrawer
  split
  · exact ⟨rfl, rfl, rfl, rfl, rfl, rfl, rfl, rfl, rfl, rfl, rfl⟩
  · exact ⟨rfl, rfl, rfl, rfl, rfl, rfl, rfl, rfl, rfl, rfl, rfl⟩

/-- Every frame emitted by `handleRoundEnd` is a `round_ended` broadcast
or the `game_ended` broadcast of the inline game end. -/
theorem handleRoundEnd_frames (cfg : PointsConfig) (r : Room) (now : Int) :
    ∀ e ∈ (handleRoundEnd cfg r now).2.1,
      (∃ d, e.2 = Frame.roundEnded d) ∨
        (∃ w l, e.2 = Frame.gameEnded w l) := by
  intro e
  simp only [handleRoundEnd, handleGameEnd]
  repeat' split
  all_goals intro he
  all_goals fin_cases he
  all_goals
    first
    | exact Or.inl ⟨_, rfl⟩
    | exact Or.inr ⟨_, _, rfl⟩

/-- C1 (counterexample): in the S4 room (Alice drawing the word "cat"),
Bob's correct guess "cat" is relayed verbatim as a `chat_message`
broadcast to the whole room — emitted first, before validation, while the
room is still in Playing/Drawing — so a frame whose payload carries
`current_word` reaches non-drawer recipients before the round ends. -/
theorem C1_counterexample :
    s4room.state = GameState.playing ∧ s4room.phase = GamePhase.drawing ∧
    s4room.currentWord = "cat" ∧ s4room.currentDrawer = "alice" ∧
    s4room.players.map User.id = ["alice", "bob"] ∧
    (handleSendGuess defaultPoints s4room "bob" "cat" 10).2.1[0]?
      = some (Recipient.toRoom "room1",
          Frame.chatMessage ⟨"Bob", "cat", false⟩) ∧
    (Frame.chatMessage ⟨"Bob", "cat", false⟩).mentionsWord
      s4room.currentWord = true := by
  decide

/-- C1 (amended): the `new_round` frame built for non-drawers omits the
word — among `handleNewRound`'s emissions, only the frame unicast to the
drawer can carry a nonempty round word — and of the frames
`handleSendGuess` emits, the only ones that can carry the room's current
word are the `chat_message` relaying the sanitized guess itself
(broadcast to the whole room before validation), the `guess_result`
unicast to the correct guesser, and the `round_ended` / `game_ended`
broadcasts sent after the round has been ended. -/
theorem C1_secrecy_amended :
    (∀ (r : Room) (word hint : String) (now : Int) (e : Emission),
      e ∈ (handleNewRound r word hint now).2.1 → word ≠ "" →
      e.2.mentionsWord word = true →
      e.1 = Recipient.toUser (handleNewRound r word hint now).1.currentDrawer) ∧
    (∀ (cfg : PointsConfig) (r : Room) (uid guess : String) (now : Int)
      (e : Emission),
      e ∈ (handleSendGuess cfg r uid guess now).2.1 →
      e.2.mentionsWord r.currentWord = true →
      (∃ d, e.2 = Frame.chatMessage d ∧ d.text = sanitizeInput guess) ∨
      (∃ d, e.2 = Frame.guessResult d ∧ e.1 = Recipient.toUser uid) ∨
      (∃ d, e.2 = Frame.roundEnded d) ∨
      (∃ w l, e.2 = Frame.gameEnded w l)) := by
  constructor
  · intro r word hint now e he hw hm
    simp only [handleNewRound] at he ⊢
    cases hget : (r.startNewRound word hint now).getPlayer
        (r.startNewRound word hint now).currentDrawer with
    | none =>
      rw [hget] at he
      exact absurd he (List.not_mem_nil e)
    | some drawer =>
      rw [hget] at he
      rcases List.mem_cons.mp he with rfl | he2
      · rfl
      · rcases List.mem_cons.mp he2 with rfl | he3
        · exfalso
          have hm2 : ("" : String) = word := by
            simpa [Frame.mentionsWord] using hm
          exact hw hm2.symm
        · exact absurd he3 (List.not_mem_nil _)
  · intro cfg r uid guess now e
    simp only [handleSendGuess]
    split
    · intro he hm
      rcases List.mem_cons.mp he with rfl | he2
      · simp [Frame.mentionsWord] at hm
      · exact absurd he2 (List.not_mem_nil _)
    · split
      · intro he hm
        rcases List.mem_cons.mp he with rfl | he2
        · exact Or.inl ⟨_, rfl, rfl⟩
        · exact absurd he2 (List.not_mem_nil _)
      · split
        · intro he hm
          rcases List.mem_append.mp he with hes | htail
          · rcases List.mem_cons.mp hes with rfl | h2
            · exact Or.inl ⟨_, rfl, rfl⟩
            · rcases List.mem_cons.mp h2 with rfl | h3
              · exact Or.inr (Or.inl ⟨_, rfl, rfl⟩)
              · rcases List.mem_cons.mp h3 with rfl | h4
                · simp [Frame.mentionsWord] at hm
                · rcases List.mem_cons.mp h4 with rfl | h5
                  · simp [Frame.mentionsWord] at hm
                  · exact absurd h5 (List.not_mem_nil _)
          · rcases handleRoundEnd_frames cfg _ now e htail with ⟨d, hd⟩ | ⟨w, l, hwl⟩
            · exact Or.inr (Or.inr (Or.inl ⟨d, hd⟩))
            · exact Or.inr (Or.inr (Or.inr ⟨w, l, hwl⟩))
        · intro he hm
          rcases List.mem_cons.mp he with rfl | h2
          · exact Or.inl ⟨_, rfl, rfl⟩
          · rcases List.mem_cons.mp h2 with rfl | h3
            · exact Or.inr (Or.inl ⟨_, rfl, rfl⟩)
            · rcases List.mem_cons.mp h3 with rfl | h4
              · simp [Frame.mentionsWord] at hm
              · rcases List.mem_cons.mp h4 with rfl | h5
                · simp [Frame.mentionsWord] at hm
                · exact absurd h5 (List.not_mem_nil _)

/-- Witness for C1's amended theorem: the chat relay of Bob's correct
guess in the S4 room is one of the admissible word-carrying frames. -/
theorem C1_secrecy_amended_witness :
    (∃ d, Frame.chatMessage ⟨"Bob", "cat", false⟩ = Frame.chatMessage d ∧
       d.text = sanitizeInput "cat") ∨
    (∃ d, Frame.chatMessage ⟨"Bob", "cat", false⟩ = Frame.guessResult d ∧
       Recipient.toRoom "room1" = Recipient.toUser "bob") ∨
    (∃ d, Frame.chatMessage ⟨"Bob", "cat", false⟩ = Frame.roundEnded d) ∨
    (∃ w l, Frame.chatMessage ⟨"Bob", "cat", false⟩ = Frame.gameEnded w l) :=
  C1_secrecy_amended.2 defaultPoints s4room "bob" "cat" 10
    (Recipient.toRoom "room1", Frame.chatMessage ⟨"Bob", "cat", false⟩)
    (by decide) (by decide)

/-! ## C6 — double-submitting a correct guess -/

/-- `find?` by id commutes with mapping an id-preserving function. -/
theorem find?_map_id_preserving (l : List User) (uid : String)
    (f : User → User) (hf : ∀ u, (f u).id = u.id) :
    (l.map f).find? (fun u => u.id = uid)
      = (l.find? (fun u => u.id = uid)).map f := by
  induction l with
  | nil => rfl
  | cons a l ih =>
    by_cases h : a.id = uid
    · simp [List.find?_cons, hf a, h]
    · simp [List.find?_cons, hf a, h, ih]

/-- Looking up the updated player returns the function applied to the old
entry (for id-preserving updates). -/
theorem getPlayer_updatePlayer_self (r : Room) (uid : String)
    (f : User → User) (hf : ∀ u, (f u).id = u.id) :
    (r.updatePlayer uid f).getPlayer uid
      = (r.getPlayer uid).map (fun u => if u.id = uid then f u else u) := by
  unfold Room.getPlayer Room.updatePlayer
  exact find?_map_id_preserving r.players uid _
    (fun u => by by_cases h : u.id = uid <;> simp [h, hf u])

/-- `AddGuess` leaves the player map untouched. -/
theorem addGuess_players (r : Room) (uid : String) (now : Int) :
    ((r.addGuess uid now).1).players = r.players := by
  unfold Room.addGuess
  split <;> rfl

/-- `AddGuess` does not change lookups. -/
theorem addGuess_getPlayer (r : Room) (uid vid : String) (now : Int) :
    ((r.addGuess uid now).1).getPlayer vid = r.getPlayer vid := by
  unfold Room.getPlayer
  rw [addGuess_players]

/-- A successful `find?` satisfies its predicate: the found player has the
looked-up id. -/
theorem getPlayer_id (r : Room) (uid : String) (u : User)
    (h : r.getPlayer uid = some u) : u.id = uid := by
  have := List.find?_some h
  simpa using this

/-- Characterization of `ValidateGuess` on a correct guess: the guesser
existed, had not guessed, was not the drawer, and the room is updated by
recording the guess, adding the points, and appending to
`guessedPlayers`. -/
theorem validateGuess_correct_shape (cfg : PointsConfig) (r : Room)
    (uid guess : String) (now : Int)
    (hc : (validateGuess cfg r uid guess now).2.correct = true) :
    ∃ user, r.getPlayer uid = some user ∧
      user.hasGuessedThisRound = false ∧ ¬ uid = r.currentDrawer ∧
      (validateGuess cfg r uid guess now).1
        = ((r.updatePlayer uid (fun u =>
            (u.recordGuess now true ((r.guessedPlayers.length : Int) + 1)).addScore
              (calculateGuesserPoints cfg ((r.guessedPlayers.length : Int) + 1)
                ((r.guessedPlayers.length : Int) + 1) (now - r.roundStartTime)
                r.roundTime (r.players.length : Int)
                r.difficulty))).addGuess uid now).1 ∧
      (validateGuess cfg r uid guess now).2.points
        = calculateGuesserPoints cfg ((r.guessedPlayers.length : Int) + 1)
            ((r.guessedPlayers.length : Int) + 1) (now - r.roundStartTime)
            r.roundTime (r.players.length : Int) r.difficulty := by
  simp only [validateGuess] at hc ⊢
  cases hfind : r.getPlayer uid with
  | none =>
    simp only [hfind] at hc
    exact absurd hc Bool.false_ne_true
  | some user =>
    simp only [hfind] at hc
    by_cases hg : user.hasGuessedThisRound = true ∨ uid = r.currentDrawer
    · rw [if_pos hg] at hc
      exact absurd hc Bool.false_ne_true
    · by_cases heq : ¬ goToLower (goTrimSpace guess)
          = goToLower (goTrimSpace r.currentWord)
      · rw [if_neg hg, if_pos heq] at hc
        exact absurd hc Bool.false_ne_true
      · have hng : user.hasGuessedThisRound = false := by
          rcases Bool.eq_false_or_eq_true user.hasGuessedThisRound with h | h
          · exact absurd (Or.inl h) hg
          · exact h
        have hnd : ¬ uid = r.currentDrawer := fun h => hg (Or.inr h)
        refine ⟨user, rfl, hng, hnd, ?_, ?_⟩
        · simp only [hg, heq, if_false]
        · simp only [hg, heq, if_false]

/-- C6: once a player's correct guess has been recorded, any further
`send_guess` from that player is validated as incorrect (the zero-valued
result) and leaves the room — their score, guess order, and the room's
`guessedPlayers` — completely unchanged, so points are awarded exactly
once. -/
theorem C6_double_submit (cfg : PointsConfig) (r : Room) (uid guess : String)
    (now : Int)
    (hc : (validateGuess cfg r uid guess now).2.correct = true)
    (guess2 : String) (now2 : Int) :
    validateGuess cfg ((validateGuess cfg r uid guess now).1) uid guess2 now2
      = ((validateGuess cfg r uid guess now).1, GuessResultData.incorrect) := by
  obtain ⟨user, hfind, hng, hnd, hroom, hpts⟩ :=
    validateGuess_correct_shape cfg r uid guess now hc
  have huid : user.id = uid := getPlayer_id r uid user hfind
  set r1 := (validateGuess cfg r uid guess now).1 with hr1
  have hget2 : r1.getPlayer uid
      = some ((user.recordGuess now true ((r.guessedPlayers.length : Int) + 1)).addScore
          (calculateGuesserPoints cfg ((r.guessedPlayers.length : Int) + 1)
            ((r.guessedPlayers.length : Int) + 1) (now - r.roundStartTime)
            r.roundTime (r.players.length : Int) r.difficulty)) := by
    rw [hroom, addGuess_getPlayer, getPlayer_updatePlayer_self r uid
      (fun u =>
      (u.recordGuess now true ((r.guessedPlayers.length : Int) + 1)).addScore
        (calculateGuesserPoints cfg ((r.guessedPlayers.length : Int) + 1)
          ((r.guessedPlayers.length : Int) + 1) (now - r.roundStartTime)
          r.roundTime (r.players.length : Int) r.difficulty)) (fun u => rfl), hfind]
    simp [huid]
  have hguessed : ((user.recordGuess now true
      ((r.guessedPlayers.length : Int) + 1)).addScore
        (calculateGuesserPoints cfg ((r.guessedPlayers.length : Int) + 1)
          ((r.guessedPlayers.length : Int) + 1) (now - r.roundStartTime)
          r.roundTime (r.players.length : Int)
          r.difficulty)).hasGuessedThisRound = true := rfl
  simp only [validateGuess, hget2]
  rw [if_pos (Or.inl hguessed)]

/-- Witness for C6: Bob's second "cat" in the S4 room is rejected and
changes nothing. -/
theorem C6_double_submit_witness :
    validateGuess defaultPoints
        ((validateGuess defaultPoints s4room "bob" "cat" 10).1) "bob" "cat" 22
      = ((validateGuess defaultPoints s4room "bob" "cat" 10).1,
         GuessResultData.incorrect) :=
  C6_double_submit defaultPoints s4room "bob" "cat" 10 (by decide) "cat" 22

/-! ## C4 — points conservation -/

/-- Members of the updated player list that are not the updated player
were already present. -/
theorem mem_players_updatePlayer_other (r : Room) (uid : String)
    (f : User → User) (hf : ∀ u, (f u).id = u.id) (v : User)
    (hv : v ∈ (r.updatePlayer uid f).players) (hne : v.id ≠ uid) :
    v ∈ r.players := by
  obtain ⟨a, ha, hav⟩ := List.mem_map.mp hv
  by_cases h : a.id = uid
  · rw [if_pos h] at hav
    subst hav
    exact absurd ((hf a).trans h) hne
  · rw [if_neg h] at hav
    subst hav
    exact ha

/-- `emittedPointsAwards` distributes over append. -/
theorem emittedPointsAwards_append (a b : List Emission) :
    emittedPointsAwards (a ++ b)
      = emittedPointsAwards a ++ emittedPointsAwards b :=
  List.filterMap_append a b _

/-- `HandleRoundEnd` never emits a `points_awarded` frame. -/
theorem handleRoundEnd_no_points (cfg : PointsConfig) (r : Room) (now : Int) :
    emittedPointsAwards (handleRoundEnd cfg r now).2.1 = [] := by
  unfold emittedPointsAwards
  rw [List.filterMap_eq_nil_iff]
  intro e he
  obtain ⟨rec, fr⟩ := e
  rcases handleRoundEnd_frames cfg r now _ he with ⟨d, hd⟩ | ⟨w, l, hwl⟩
  · have hfr : fr = Frame.roundEnded d := hd
    subst hfr
    rfl
  · have hfr : fr = Frame.gameEnded w l := hwl
    subst hfr
    rfl

/-- Lookups after `EndRound` are unchanged. -/
theorem getPlayer_endRound (r : Room) (now : Int) (uid : String) :
    (r.endRound now).getPlayer uid = r.getPlayer uid := rfl

/-- Lookups after `EndGame` see the per-round reset applied to the same
player. -/
theorem getPlayer_endGame (r : Room) (now : Int) (uid : String) :
    (r.endGame now).getPlayer uid
      = (r.getPlayer uid).map (fun u => (u.resetRoundData).setReady false) := by
  unfold Room.endGame Room.getPlayer
  exact find?_map_id_preserving r.players uid _ (fun u => rfl)

/-- C4 (amended): each correct guess's points are added to exactly one
player's score — the guesser's, whose score rises by exactly the reported
points while every other player's entry is untouched — and are announced
exactly once: `handleSendGuess` broadcasts exactly one `points_awarded`
frame (with the validated amount) for a correct guess and none otherwise.
The `drawer_points` announced in `round_ended` equal the amount actually
added to the drawer's score by `HandleRoundEnd`. (The per-guesser points
listed inside `round_ended` are recomputed and may differ — see the
counterexample.) -/
theorem C4_award_conservation :
    (∀ (cfg : PointsConfig) (r : Room) (uid guess : String) (now : Int),
      (validateGuess cfg r uid guess now).2.correct = true →
      ((validateGuess cfg r uid guess now).1.getPlayer uid).map User.score
        = (r.getPlayer uid).map
            (fun u => u.score + (validateGuess cfg r uid guess now).2.points) ∧
      ∀ v ∈ (validateGuess cfg r uid guess now).1.players,
        v.id ≠ uid → v ∈ r.players) ∧
    (∀ (cfg : PointsConfig) (r : Room) (uid guess : String) (now : Int),
      r.state = GameState.playing → r.phase = GamePhase.drawing →
      emittedPointsAwards (handleSendGuess cfg r uid guess now).2.1
        = (if (validateGuess cfg r uid (sanitizeInput guess) now).2.correct
           then [(validateGuess cfg r uid (sanitizeInput guess) now).2.points]
           else [])) ∧
    (∀ (cfg : PointsConfig) (r : Room) (now : Int),
      (r.getPlayer r.currentDrawer).isSome = true →
      ((handleRoundEnd cfg r now).1.getPlayer r.currentDrawer).map User.score
        = (r.getPlayer r.currentDrawer).map (fun u => u.score +
            calculateDrawerPoints cfg (r.guessedPlayers.length : Int)
              (r.players.length : Int) r.roundTime) ∧
      (emittedRoundEnds (handleRoundEnd cfg r now).2.1).map
          RoundEndData.drawerPoints
        = [calculateDrawerPoints cfg (r.guessedPlayers.length : Int)
            (r.players.length : Int) r.roundTime]) := by
  refine ⟨?_, ?_, ?_⟩
  · intro cfg r uid guess now hc
    obtain ⟨user, hfind, hng, hnd, hroom, hpts⟩ :=
      validateGuess_correct_shape cfg r uid guess now hc
    have huid : user.id = uid := getPlayer_id r uid user hfind
    constructor
    · rw [hroom, addGuess_getPlayer, getPlayer_updatePlayer_self r uid
        (fun u =>
          (u.recordGuess now true ((r.guessedPlayers.length : Int) + 1)).addScore
            (calculateGuesserPoints cfg ((r.guessedPlayers.length : Int) + 1)
              ((r.guessedPlayers.length : Int) + 1) (now - r.roundStartTime)
              r.roundTime (r.players.length : Int) r.difficulty))
        (fun u => rfl), hfind, hpts]
      simp [huid, User.addScore, User.recordGuess]
    · intro v hv hne
      rw [hroom, addGuess_players] at hv
      exact mem_players_updatePlayer_other r uid (fun u =>
        (u.recordGuess now true ((r.guessedPlayers.length : Int) + 1)).addScore
          (calculateGuesserPoints cfg ((r.guessedPlayers.length : Int) + 1)
            ((r.guessedPlayers.length : Int) + 1) (now - r.roundStartTime)
            r.roundTime (r.players.length : Int) r.difficulty))
        (fun u => rfl) v hv hne
  · intro cfg r uid guess now hs hp
    simp only [handleSendGuess]
    rw [if_neg (not_not_intro ⟨hs, hp⟩)]
    by_cases hcor :
        (validateGuess cfg r uid (sanitizeInput guess) now).2.correct = true
    · rw [if_neg (not_not_intro hcor), if_pos hcor]
      by_cases hre :
          (validateGuess cfg r uid (sanitizeInput guess) now).2.roundEnding = true
      · rw [if_pos hre, emittedPointsAwards_append, handleRoundEnd_no_points]
        simp [emittedPointsAwards]
      · rw [if_neg hre]
        simp [emittedPointsAwards]
    · have hcor2 :
          (validateGuess cfg r uid (sanitizeInput guess) now).2.correct = false := by
        rcases Bool.eq_false_or_eq_true
          (validateGuess cfg r uid (sanitizeInput guess) now).2.correct with h | h
        · exact absurd h hcor
        · exact h
      rw [if_pos hcor, if_neg (by simp [hcor2])]
      simp [emittedPointsAwards]
  · intro cfg r now hsome
    obtain ⟨du, hdu⟩ := Option.isSome_iff_exists.mp hsome
    have huid : du.id = r.currentDrawer := getPlayer_id r r.currentDrawer du hdu
    simp only [handleRoundEnd]
    rw [if_pos hsome]
    by_cases hlast :
        (((r.updatePlayer r.currentDrawer (fun u =>
            (u.addScore (calculateDrawerPoints cfg
              (r.guessedPlayers.length : Int) (r.players.length : Int)
              r.roundTime)).recordDrawerTurn)).endRound now).endRound
          now).currentRound
        ≥ (((r.updatePlayer r.currentDrawer (fun u =>
            (u.addScore (calculateDrawerPoints cfg
              (r.guessedPlayers.length : Int) (r.players.length : Int)
              r.roundTime)).recordDrawerTurn)).endRound now).endRound
          now).maxRounds
    · rw [if_pos hlast]
      constructor
      · rw [show (handleGameEnd (((r.updatePlayer r.currentDrawer (fun u =>
            (u.addScore (calculateDrawerPoints cfg
              (r.guessedPlayers.length : Int) (r.players.length : Int)
              r.roundTime)).recordDrawerTurn)).endRound now).endRound now)
            now).1 = ((((r.updatePlayer r.currentDrawer (fun u =>
            (u.addScore (calculateDrawerPoints cfg
              (r.guessedPlayers.length : Int) (r.players.length : Int)
              r.roundTime)).recordDrawerTurn)).endRound now).endRound
            now).endGame now) from rfl,
          getPlayer_endGame, getPlayer_endRound, getPlayer_endRound,
          getPlayer_updatePlayer_self r r.currentDrawer (fun u =>
            (u.addScore (calculateDrawerPoints cfg
              (r.guessedPlayers.length : Int) (r.players.length : Int)
              r.roundTime)).recordDrawerTurn) (fun u => rfl), hdu]
        simp [huid, User.addScore, User.recordDrawerTurn, User.resetRoundData,
          User.setReady]
      · simp [emittedRoundEnds, handleGameEnd]
    · rw [if_neg hlast]
      constructor
      · rw [getPlayer_endRound, getPlayer_endRound,
          getPlayer_updatePlayer_self r r.currentDrawer (fun u =>
            (u.addScore (calculateDrawerPoints cfg
              (r.guessedPlayers.length : Int) (r.players.length : Int)
              r.roundTime)).recordDrawerTurn) (fun u => rfl), hdu]
        simp [huid, User.addScore, User.recordDrawerTurn]
      · simp [emittedRoundEnds]

/-- Witness for C4's amended theorem: Bob's correct S4 guess raises his
score by exactly the reported 220 points. -/
theorem C4_award_conservation_witness :
    ((validateGuess defaultPoints s4room "bob" "cat" 10).1.getPlayer
        "bob").map User.score
      = (s4room.getPlayer "bob").map (fun u => u.score +
          (validateGuess defaultPoints s4room "bob" "cat" 10).2.points) :=
  (C4_award_conservation.1 defaultPoints s4room "bob" "cat" 10 (by decide)).1

/-- First correct guess of the three-player scenario (Bob, 10 s in). -/
def trioStep1 : Room × GuessResultData :=
  validateGuess defaultPoints trioRoom "bob" "cat" 10

/-- Second correct guess of the three-player scenario (Carol, 20 s in). -/
def trioStep2 : Room × GuessResultData :=
  validateGuess defaultPoints trioStep1.1 "carol" "cat" 20

/-- The round end following the two correct guesses. -/
def trioRoundEnd : Room × List Emission × NextAction :=
  handleRoundEnd defaultPoints trioStep2.1 21

/-- C4 (counterexample): in a three-player room (Alice drawing "cat",
default config), Bob's first correct guess is awarded 236 points — his
score rises from 0 to 236 and `points_awarded` says 236 — but the
`round_ended` broadcast then lists Bob with 203 points, because
`HandleRoundEnd` recomputes `CalculateGuesserPoints` with the final
guesser count (2) instead of the count at guess time (1). The listed
per-guesser points therefore do not equal the amounts actually added. -/
theorem C4_counterexample :
    trioStep1.2.points = 236 ∧
    (trioRoom.getPlayer "bob").map User.score = some 0 ∧
    (trioStep2.1.getPlayer "bob").map User.score = some 236 ∧
    emittedPointsAwards (handleSendGuess defaultPoints trioRoom "bob" "cat"
      10).2.1 = [236] ∧
    (emittedRoundEnds trioRoundEnd.2.1).map
        (fun d => d.guessers.map (fun g => (g.userID, g.points)))
      = [[("bob", 203), ("carol", 182)]] ∧
    (203 : Int) ≠ 236 := by
  decide

/-! ## C9 — leaderboard order and winner -/

/-- Sorted by score, descending (the order `sort.Slice`'s comparator
`score_i > score_j` guarantees). -/
def scoreDescSorted (l : List PublicUser) : Prop :=
  List.Pairwise (fun a b => b.score ≤ a.score) l

/-- Inserting preserves the multiset of players. -/
theorem insertByScoreDesc_perm (x : PublicUser) (l : List PublicUser) :
    (insertByScoreDesc x l).Perm (x :: l) := by
  induction l with
  | nil => exact List.Perm.refl _
  | cons y ys ih =>
    unfold insertByScoreDesc
    by_cases h : x.score > y.score
    · rw [if_pos h]
    · rw [if_neg h]
      exact (ih.cons y).trans (List.Perm.swap x y ys)

/-- Inserting keeps the list sorted by score descending. -/
theorem insertByScoreDesc_sorted (x : PublicUser) (l : List PublicUser)
    (hl : scoreDescSorted l) : scoreDescSorted (insertByScoreDesc x l) := by
  induction l with
  | nil => simp [insertByScoreDesc, scoreDescSorted]
  | cons y ys ih =>
    obtain ⟨hy, hys⟩ := List.pairwise_cons.mp hl
    unfold insertByScoreDesc
    by_cases h : x.score > y.score
    · rw [if_pos h]
      refine List.pairwise_cons.mpr ⟨?_, hl⟩
      intro b hb
      rcases List.mem_cons.mp hb with rfl | hb2
      · exact le_of_lt h
      · exact le_trans (hy b hb2) (le_of_lt h)
    · rw [if_neg h]
      refine List.pairwise_cons.mpr ⟨?_, ih hys⟩
      intro b hb
      rcases List.mem_cons.mp
          ((insertByScoreDesc_perm x ys).mem_iff.mp hb) with rfl | hb2
      · exact le_of_not_lt h
      · exact hy b hb2

/-- The sort emits a permutation of its input. -/
theorem sortByScoreDesc_perm (l : List PublicUser) :
    (sortByScoreDesc l).Perm l := by
  induction l with
  | nil => exact List.Perm.refl _
  | cons x xs ih =>
    exact (insertByScoreDesc_perm x (sortByScoreDesc xs)).trans (ih.cons x)

/-- The sort's output is sorted by score descending. -/
theorem sortByScoreDesc_sorted (l : List PublicUser) :
    scoreDescSorted (sortByScoreDesc l) := by
  induction l with
  | nil => exact List.Pairwise.nil
  | cons x xs ih => exact insertByScoreDesc_sorted x (sortByScoreDesc xs) ih

/-- Invariant of `HandleGameEnd`'s winner fold: the tracked best score
bounds everything seen, and the tracked winner realizes it. -/
theorem winner_fold_spec (iter : List User) (acc : Option PublicUser × Int)
    (hacc : ∀ w, acc.1 = some w → w.score = acc.2) :
    (∀ w, (iter.foldl (fun acc p => if p.score > acc.2
        then (some p.toPublicUser, p.score) else acc) acc).1 = some w →
      w.score = (iter.foldl (fun acc p => if p.score > acc.2
        then (some p.toPublicUser, p.score) else acc) acc).2) ∧
    acc.2 ≤ (iter.foldl (fun acc p => if p.score > acc.2
        then (some p.toPublicUser, p.score) else acc) acc).2 ∧
    (∀ u ∈ iter, u.score ≤ (iter.foldl (fun acc p => if p.score > acc.2
        then (some p.toPublicUser, p.score) else acc) acc).2) := by
  induction iter generalizing acc with
  | nil => exact ⟨hacc, le_refl _, by intro u hu; exact absurd hu (List.not_mem_nil u)⟩
  | cons p ps ih =>
    simp only [List.foldl_cons]
    by_cases h : p.score > acc.2
    · rw [if_pos h]
      obtain ⟨h1, h2, h3⟩ := ih (some p.toPublicUser, p.score)
        (by intro w hw; cases hw; rfl)
      refine ⟨h1, le_trans (le_of_lt h) h2, ?_⟩
      intro u hu
      rcases List.mem_cons.mp hu with rfl | hu2
      · exact h2
      · exact h3 u hu2
    · rw [if_neg h]
      obtain ⟨h1, h2, h3⟩ := ih acc hacc
      refine ⟨h1, h2, ?_⟩
      intro u hu
      rcases List.mem_cons.mp hu with rfl | hu2
      · exact le_trans (le_of_not_lt h) h2
      · exact h3 u hu2

/-- Player with the earlier `joined_at` in the tie scenario. -/
def tieUserA : User := { mkUser "ua" "UA" 0 with score := 100 }

/-- Player with the later `joined_at` (equal score). -/
def tieUserB : User := { mkUser "ub" "UB" 5 with score := 100 }

/-- C9 (counterexample): with two equal-score players — `tieUserA` joined
earlier than `tieUserB` — there are (arbitrary, randomized) Go map
iteration orders under which the emitted leaderboard lists the later
joiner first (`sort.Slice` only sorts by score and guarantees nothing for
ties) and under which `HandleGameEnd`'s winner fold crowns the later
joiner (it keeps the first strictly-greater score in iteration order).
The claimed joined_at tie-break is implemented nowhere. -/
theorem C9_counterexample :
    tieUserA.score = tieUserB.score ∧
    tieUserA.joinedAt < tieUserB.joinedAt ∧
    getLeaderboard [tieUserA, tieUserB]
      = [tieUserB.toPublicUser, tieUserA.toPublicUser] ∧
    tieUserA.toPublicUser ≠ tieUserB.toPublicUser ∧
    computeWinner [tieUserB, tieUserA] = some tieUserB.toPublicUser := by
  decide

/-- C9 (amended): every emitted leaderboard is the room's players sorted
by score descending — a permutation of their public views with
non-increasing scores, the order among equal scores being unspecified
(it depends on Go's map iteration order) — and the winner reported in
`game_ended`, when present, has a score at least every player's; ties are
broken by iteration order, not by `joined_at`. -/
theorem C9_leaderboard_amended :
    (∀ iter : List User,
      scoreDescSorted (getLeaderboard iter) ∧
      (getLeaderboard iter).Perm (iter.map User.toPublicUser)) ∧
    (∀ (iter : List User) (w : PublicUser), computeWinner iter = some w →
      ∀ u ∈ iter, u.score ≤ w.score) := by
  constructor
  · intro iter
    exact ⟨sortByScoreDesc_sorted _, sortByScoreDesc_perm _⟩
  · intro iter w hw u hu
    obtain ⟨h1, _, h3⟩ := winner_fold_spec iter ((none : Option PublicUser), 0)
      (by intro w hw; cases hw)
    rw [h1 w hw]
    exact h3 u hu

/-- Witness for C9's amended theorem at the tie scenario. -/
theorem C9_leaderboard_amended_witness :
    scoreDescSorted (getLeaderboard [tieUserB, tieUserA]) ∧
    tieUserA.score ≤ tieUserB.toPublicUser.score :=
  ⟨(C9_leaderboard_amended.1 [tieUserB, tieUserA]).1,
   C9_leaderboard_amended.2 [tieUserB, tieUserA] tieUserB.toPublicUser
     (by decide) tieUserA (by decide)⟩

/-! ## C7/C8 — reachable-state invariants

Per-operation effect lemmas on the fields the invariants depend on,
followed by a step-preservation lemma over `RoomStep` and induction along
`RoomReachable`. -/

/-- `updatePlayer` keeps the player count and every non-`players` field. -/
theorem updatePlayer_fields (r : Room) (uid : String) (f : User → User) :
    (r.updatePlayer uid f).players.length = r.players.length ∧
    (r.updatePlayer uid f).maxPlayers = r.maxPlayers ∧
    (r.updatePlayer uid f).state = r.state ∧
    (r.updatePlayer uid f).currentDrawer = r.currentDrawer ∧
    (r.updatePlayer uid f).guessedPlayers = r.guessedPlayers :=
  ⟨by simp [Room.updatePlayer], rfl, rfl, rfl, rfl⟩

/-- `AddGuess` keeps capacity, state and the current drawer. -/
theorem addGuess_fields (r : Room) (uid : String) (now : Int) :
    (r.addGuess uid now).1.maxPlayers = r.maxPlayers ∧
    (r.addGuess uid now).1.state = r.state ∧
    (r.addGuess uid now).1.currentDrawer = r.currentDrawer := by
  unfold Room.addGuess
  split <;> exact ⟨rfl, rfl, rfl⟩

/-- `AddGuess` either refuses a duplicate (leaving `guessedPlayers`
unchanged) or appends a uid that was not yet present. -/
theorem addGuess_guessed (r : Room) (uid : String) (now : Int) :
    (r.addGuess uid now).1.guessedPlayers = r.guessedPlayers ∨
    (¬ uid ∈ r.guessedPlayers ∧
      (r.addGuess uid now).1.guessedPlayers = r.guessedPlayers ++ [uid]) := by
  unfold Room.addGuess
  by_cases h : uid ∈ r.guessedPlayers
  · rw [if_pos h]
    exact Or.inl rfl
  · rw [if_neg h]
    exact Or.inr ⟨h, rfl⟩

/-- `EndGame` keeps the player count and capacity and clears the guess
set. -/
theorem endGame_fields (r : Room) (now : Int) :
    (r.endGame now).players.length = r.players.length ∧
    (r.endGame now).maxPlayers = r.maxPlayers ∧
    (r.endGame now).guessedPlayers = [] := by
  refine ⟨?_, rfl, rfl⟩
  simp [Room.endGame]

/-- `StartGame` keeps the player count, capacity and guess set. -/
theorem startGame_fields (r : Room) (now : Int) :
    (r.startGame now).players.length = r.players.length ∧
    (r.startGame now).maxPlayers = r.maxPlayers ∧
    (r.startGame now).guessedPlayers = r.guessedPlayers := by
  simp only [Room.startGame]
  split <;> exact ⟨by simp, rfl, rfl⟩

/-- `StartNewRound` keeps the player count and capacity and clears the
guess set. -/
theorem startNewRound_fields (r : Room) (word hint : String) (now : Int) :
    (r.startNewRound word hint now).players.length = r.players.length ∧
    (r.startNewRound word hint now).maxPlayers = r.maxPlayers ∧
    (r.startNewRound word hint now).guessedPlayers = [] := by
  unfold Room.startNewRound
  refine ⟨?_, ?_, ?_⟩
  · rw [(selectNextDrawer_preserves _).1]
    simp
  · rw [(selectNextDrawer_preserves _).2.2.2.2.2.2.2.1]
  · rw [(selectNextDrawer_preserves _).2.2.2.2.1]

/-- `RemovePlayer` keeps capacity, state and drawer, can only shrink the
player list, and at most erases the removed uid from the guess set. -/
theorem removePlayer_fields (r : Room) (uid : String) (now : Int) :
    (r.removePlayer uid now).1.maxPlayers = r.maxPlayers ∧
    (r.removePlayer uid now).1.state = r.state ∧
    (r.removePlayer uid now).1.currentDrawer = r.currentDrawer ∧
    (r.removePlayer uid now).1.players.length ≤ r.players.length ∧
    ((r.removePlayer uid now).1.guessedPlayers = r.guessedPlayers ∨
      (r.removePlayer uid now).1.guessedPlayers
        = r.guessedPlayers.erase uid) := by
  simp only [Room.removePlayer, Room.assignNewHost]
  repeat' split
  all_goals refine ⟨rfl, rfl, rfl, ?_, ?_⟩
  all_goals
    first
      | exact le_refl _
      | exact List.length_filter_le _ _
      | exact Or.inl rfl
      | exact Or.inr rfl

/-- The room component of `HandleNewRound` is exactly `StartNewRound`. -/
theorem handleNewRound_room (r : Room) (word hint : String) (now : Int) :
    (handleNewRound r word hint now).1 = r.startNewRound word hint now := by
  simp only [handleNewRound]
  split <;> rfl

/-- The room component of `HandleGameStart`: `StartGame` applied twice
followed by the first `StartNewRound`. -/
theorem handleGameStart_room (r : Room) (word hint : String) (now : Int) :
    (handleGameStart r word hint now).1
      = ((r.startGame now).startGame now).startNewRound word hint now := by
  simp only [handleGameStart]
  exact handleNewRound_room _ word hint now

/-- The room component of `HandleRoundEnd`: an optional drawer-points
update, then `EndRound` twice, optionally followed by the inline
`EndGame`. -/
theorem handleRoundEnd_room (cfg : PointsConfig) (r : Room) (now : Int) :
    ∃ r1 : Room,
      (r1 = r.updatePlayer r.currentDrawer
          (fun u => (u.addScore (calculateDrawerPoints cfg
            (r.guessedPlayers.length : Int) (r.players.length : Int)
            r.roundTime)).recordDrawerTurn) ∨ r1 = r) ∧
      ((handleRoundEnd cfg r now).1
          = (((r1.endRound now).endRound now).endGame now) ∨
       (handleRoundEnd cfg r now).1 = (r1.endRound now).endRound now) := by
  simp only [handleRoundEnd, handleGameEnd]
  repeat' split
  all_goals
    first
      | exact ⟨_, Or.inl rfl, Or.inl rfl⟩
      | exact ⟨_, Or.inl rfl, Or.inr rfl⟩
      | exact ⟨_, Or.inr rfl, Or.inl rfl⟩
      | exact ⟨_, Or.inr rfl, Or.inr rfl⟩

/-- The room component of `handleSendGuess`: unchanged on the state
guard, else the `ValidateGuess` room, possibly passed on to
`HandleRoundEnd`. -/
theorem handleSendGuess_room (cfg : PointsConfig) (r : Room)
    (uid guess : String) (now : Int) :
    (handleSendGuess cfg r uid guess now).1 = r ∨
    (handleSendGuess cfg r uid guess now).1
      = (validateGuess cfg r uid (sanitizeInput guess) now).1 ∨
    (handleSendGuess cfg r uid guess now).1
      = (handleRoundEnd cfg
          (validateGuess cfg r uid (sanitizeInput guess) now).1 now).1 := by
  simp only [handleSendGuess]
  repeat' split
  all_goals
    first
      | exact Or.inl rfl
      | exact Or.inr (Or.inl rfl)
      | exact Or.inr (Or.inr rfl)

/-- Branch characterization of `ValidateGuess`'s room component: room
unchanged, an incorrect-guess player update, or (for a non-drawer) an
update followed by `AddGuess`. -/
theorem validateGuess_cases (cfg : PointsConfig) (r : Room)
    (uid guess : String) (now : Int) :
    (validateGuess cfg r uid guess now).1 = r ∨
    (validateGuess cfg r uid guess now).1
      = r.updatePlayer uid (fun u => u.recordGuess now false 0) ∨
    (¬ uid = r.currentDrawer ∧ ∃ f : User → User,
      (validateGuess cfg r uid guess now).1
        = ((r.updatePlayer uid f).addGuess uid now).1) := by
  simp only [validateGuess]
  cases hfind : r.getPlayer uid with
  | none => exact Or.inl rfl
  | some user =>
    by_cases hg : user.hasGuessedThisRound = true ∨ uid = r.currentDrawer
    · left
      simp only [hg, if_true]
    · by_cases heq : ¬ goToLower (goTrimSpace guess)
          = goToLower (goTrimSpace r.currentWord)
      · right; left
        simp only [hg, heq, if_false, not_false_eq_true, if_true]
      · right; right
        refine ⟨fun h => hg (Or.inr h),
          fun u => (u.recordGuess now true
              ((r.guessedPlayers.length : Int) + 1)).addScore
            (calculateGuesserPoints cfg ((r.guessedPlayers.length : Int) + 1)
              ((r.guessedPlayers.length : Int) + 1) (now - r.roundStartTime)
              r.roundTime (r.players.length : Int) r.difficulty), ?_⟩
        simp only [hg, heq, if_false]

/-- `ValidateGuess` keeps the player count, capacity, state and current
drawer. -/
theorem validateGuess_preserves (cfg : PointsConfig) (r : Room)
    (uid guess : String) (now : Int) :
    (validateGuess cfg r uid guess now).1.players.length
      = r.players.length ∧
    (validateGuess cfg r uid guess now).1.maxPlayers = r.maxPlayers ∧
    (validateGuess cfg r uid guess now).1.state = r.state ∧
    (validateGuess cfg r uid guess now).1.currentDrawer
      = r.currentDrawer := by
  rcases validateGuess_cases cfg r uid guess now with h | h | ⟨hnd, f, h⟩
  · rw [h]
    exact ⟨rfl, rfl, rfl, rfl⟩
  · rw [h]
    exact ⟨(updatePlayer_fields r uid _).1, rfl, rfl, rfl⟩
  · rw [h]
    refine ⟨?_, ?_, ?_, ?_⟩
    · exact (congrArg List.length (addGuess_players _ uid now)).trans
        (updatePlayer_fields r uid f).1
    · exact (addGuess_fields _ uid now).1
    · exact (addGuess_fields _ uid now).2.1
    · exact (addGuess_fields _ uid now).2.2

/-- `ValidateGuess` either keeps `guessedPlayers` or appends a
not-yet-present non-drawer uid. -/
theorem validateGuess_guessed (cfg : PointsConfig) (r : Room)
    (uid guess : String) (now : Int) :
    (validateGuess cfg r uid guess now).1.guessedPlayers
      = r.guessedPlayers ∨
    (¬ uid = r.currentDrawer ∧ ¬ uid ∈ r.guessedPlayers ∧
      (validateGuess cfg r uid guess now).1.guessedPlayers
        = r.guessedPlayers ++ [uid]) := by
  rcases validateGuess_cases cfg r uid guess now with h | h | ⟨hnd, f, h⟩
  · rw [h]
    exact Or.inl rfl
  · rw [h]
    exact Or.inl rfl
  · rw [h]
    rcases addGuess_guessed (r.updatePlayer uid f) uid now with hg | ⟨hmem, hg⟩
    · exact Or.inl hg
    · exact Or.inr ⟨hnd, hmem, hg⟩

/-- `ValidateGuess` preserves the guess-set invariant: no duplicates and
no current drawer in `guessedPlayers`. -/
theorem validateGuess_nodup (cfg : PointsConfig) (r : Room)
    (uid guess : String) (now : Int)
    (hg : r.guessedPlayers.Nodup ∧ ¬ r.currentDrawer ∈ r.guessedPlayers) :
    (validateGuess cfg r uid guess now).1.guessedPlayers.Nodup ∧
      ¬ (validateGuess cfg r uid guess now).1.currentDrawer
          ∈ (validateGuess cfg r uid guess now).1.guessedPlayers := by
  have hdr := (validateGuess_preserves cfg r uid guess now).2.2.2
  rcases validateGuess_guessed cfg r uid guess now with hgu | ⟨hnd, hmem, hgu⟩
  · rw [hdr, hgu]
    exact hg
  · rw [hdr, hgu]
    constructor
    · rw [List.nodup_append]
      refine ⟨hg.1, List.nodup_singleton _, ?_⟩
      intro x hx hx2
      have hxe := List.mem_singleton.mp hx2
      subst hxe
      exact hmem hx
    · intro hm
      rcases List.mem_append.mp hm with hm | hm
      · exact hg.2 hm
      · exact hnd (List.mem_singleton.mp hm).symm

/-- `HandleRoundEnd` keeps the player count and capacity. -/
theorem handleRoundEnd_preserves_capacity (cfg : PointsConfig) (r : Room)
    (now : Int) :
    (handleRoundEnd cfg r now).1.players.length = r.players.length ∧
    (handleRoundEnd cfg r now).1.maxPlayers = r.maxPlayers := by
  obtain ⟨r1, hr1, hres⟩ := handleRoundEnd_room cfg r now
  have hlen : r1.players.length = r.players.length := by
    rcases hr1 with h | h
    · rw [h]
      exact (updatePlayer_fields r _ _).1
    · rw [h]
  have hmax : r1.maxPlayers = r.maxPlayers := by
    rcases hr1 with h | h <;> subst h <;> rfl
  rcases hres with h | h
  · rw [h]
    exact ⟨(endGame_fields _ now).1.trans hlen, hmax⟩
  · rw [h]
    exact ⟨hlen, hmax⟩

/-- `HandleRoundEnd` preserves the guess-set invariant. -/
theorem handleRoundEnd_preserves_guessed (cfg : PointsConfig) (r : Room)
    (now : Int)
    (hg : r.guessedPlayers.Nodup ∧ ¬ r.currentDrawer ∈ r.guessedPlayers) :
    (handleRoundEnd cfg r now).1.guessedPlayers.Nodup ∧
      ¬ (handleRoundEnd cfg r now).1.currentDrawer
          ∈ (handleRoundEnd cfg r now).1.guessedPlayers := by
  obtain ⟨r1, hr1, hres⟩ := handleRoundEnd_room cfg r now
  rcases hr1 with h | h <;> subst h <;> rcases hres with h2 | h2 <;> rw [h2]
  · exact ⟨List.nodup_nil, List.not_mem_nil _⟩
  · exact hg
  · exact ⟨List.nodup_nil, List.not_mem_nil _⟩
  · exact hg

/-- Every session-layer operation keeps `|players| ≤ maxPlayers`. -/
theorem roomStep_capacity {cfg : PointsConfig} {r r' : Room}
    (hs : RoomStep cfg r r')
    (hb : (r.players.length : Int) ≤ r.maxPlayers) :
    (r'.players.length : Int) ≤ r'.maxPlayers := by
  cases hs with
  | addPlayer u now =>
    by_cases h1 : (r.players.length : Int) ≥ r.maxPlayers
    · unfold Room.addPlayer
      rw [if_pos h1]
      exact hb
    · by_cases h2 : (r.getPlayer u.id).isSome = true
      · unfold Room.addPlayer
        rw [if_neg h1, if_pos h2]
        exact hb
      · unfold Room.addPlayer
        rw [if_neg h1, if_neg h2]
        show ((r.players ++ [u]).length : Int) ≤ r.maxPlayers
        simp only [List.length_append, List.length_cons, List.length_nil]
        push_cast
        omega
  | removePlayer uid now =>
    have h := removePlayer_fields r uid now
    rw [h.1]
    have hlen : ((r.removePlayer uid now).1.players.length : Int)
        ≤ (r.players.length : Int) := by exact_mod_cast h.2.2.2.1
    exact le_trans hlen hb
  | gameStart word hint now hcan =>
    rw [handleGameStart_room]
    have h1 := startNewRound_fields ((r.startGame now).startGame now)
      word hint now
    have h2 := startGame_fields (r.startGame now) now
    have h3 := startGame_fields r now
    rw [h1.1, h2.1, h3.1, h1.2.1, h2.2.1, h3.2.1]
    exact hb
  | newRound word hint now =>
    rw [handleNewRound_room]
    have h1 := startNewRound_fields r word hint now
    rw [h1.1, h1.2.1]
    exact hb
  | sendGuess uid guess now =>
    rcases handleSendGuess_room cfg r uid guess now with h | h | h
    · rw [h]
      exact hb
    · rw [h]
      have h1 := validateGuess_preserves cfg r uid (sanitizeInput guess) now
      rw [h1.1, h1.2.1]
      exact hb
    · rw [h]
      have h2 := handleRoundEnd_preserves_capacity cfg
        (validateGuess cfg r uid (sanitizeInput guess) now).1 now
      have h1 := validateGuess_preserves cfg r uid (sanitizeInput guess) now
      rw [h2.1, h2.2, h1.1, h1.2.1]
      exact hb
  | roundEnd now =>
    have h := handleRoundEnd_preserves_capacity cfg r now
    rw [h.1, h.2]
    exact hb
  | gameEnd now =>
    have h := endGame_fields r now
    show ((r.endGame now).players.length : Int) ≤ (r.endGame now).maxPlayers
    rw [h.1, h.2.1]
    exact hb
  | drawCommand cmd now => exact hb
  | clearDraw now => exact hb

/-- Every session-layer operation preserves the guess-set invariant. -/
theorem roomStep_guessed {cfg : PointsConfig} {r r' : Room}
    (hs : RoomStep cfg r r')
    (hg : r.guessedPlayers.Nodup ∧ ¬ r.currentDrawer ∈ r.guessedPlayers) :
    r'.guessedPlayers.Nodup ∧ ¬ r'.currentDrawer ∈ r'.guessedPlayers := by
  cases hs with
  | addPlayer u now =>
    unfold Room.addPlayer
    split
    · exact hg
    · split <;> exact hg
  | removePlayer uid now =>
    have h := removePlayer_fields r uid now
    constructor
    · rcases h.2.2.2.2 with hgu | hgu
      · rw [hgu]
        exact hg.1
      · rw [hgu]
        exact hg.1.erase _
    · rw [h.2.2.1]
      rcases h.2.2.2.2 with hgu | hgu <;> rw [hgu]
      · exact hg.2
      · intro hm
        exact hg.2 (List.mem_of_mem_erase hm)
  | gameStart word hint now hcan =>
    rw [handleGameStart_room]
    rw [(startNewRound_fields ((r.startGame now).startGame now)
      word hint now).2.2]
    exact ⟨List.nodup_nil, List.not_mem_nil _⟩
  | newRound word hint now =>
    rw [handleNewRound_room, (startNewRound_fields r word hint now).2.2]
    exact ⟨List.nodup_nil, List.not_mem_nil _⟩
  | sendGuess uid guess now =>
    rcases handleSendGuess_room cfg r uid guess now with h | h | h
    · rw [h]
      exact hg
    · rw [h]
      exact validateGuess_nodup cfg r uid (sanitizeInput guess) now hg
    · rw [h]
      exact handleRoundEnd_preserves_guessed cfg _ now
        (validateGuess_nodup cfg r uid (sanitizeInput guess) now hg)
  | roundEnd now =>
    exact handleRoundEnd_preserves_guessed cfg r now hg
  | gameEnd now =>
    exact ⟨List.nodup_nil, List.not_mem_nil _⟩
  | drawCommand cmd now => exact hg
  | clearDraw now => exact hg

/-- A freshly created room (`NewRoom` with capacity 4), the root of the
reachable-state witnesses. -/
def freshRoom : Room :=
  newRoom "room7" "alice" "Fresh" 4 60 2 "easy" [0, 0, 0, 0, 0, 0] 0

/-- C7: `AddPlayer` rejects a join exactly when the room is full or the
user is already present — returning failure, leaving the room (players
and player_order included) unchanged, with the joining client receiving
`JOIN_FAILED` — and otherwise appends the user to `players` and to the
end of `playerOrder`; consequently `|players| ≤ maxPlayers` holds in
every room reachable from a fresh room with nonnegative capacity. -/
theorem C7_join_capacity (cfg : PointsConfig) (r : Room) (u : User)
    (now : Int) (r0 rr : Room) (h0 : r0.isFresh)
    (hmax : 0 ≤ r0.maxPlayers) (hr : RoomReachable cfg r0 rr) :
    ((r.addPlayer u now).2 = false ↔
      (r.players.length : Int) ≥ r.maxPlayers ∨
        (r.getPlayer u.id).isSome = true) ∧
    ((r.addPlayer u now).2 = false →
      (r.addPlayer u now).1 = r ∧
      (handleJoinRoomResult r u now).2 = some "JOIN_FAILED" ∧
      (handleJoinRoomResult r u now).1 = r) ∧
    ((r.addPlayer u now).2 = true →
      (r.addPlayer u now).1.players = r.players ++ [u] ∧
      (r.addPlayer u now).1.playerOrder = r.playerOrder ++ [u.id]) ∧
    (rr.players.length : Int) ≤ rr.maxPlayers := by
  refine ⟨?_, ?_, ?_, ?_⟩
  · by_cases h1 : (r.players.length : Int) ≥ r.maxPlayers
    · unfold Room.addPlayer
      rw [if_pos h1]
      simp [h1]
    · by_cases h2 : (r.getPlayer u.id).isSome = true
      · unfold Room.addPlayer
        rw [if_neg h1, if_pos h2]
        simp [h2]
      · unfold Room.addPlayer
        rw [if_neg h1, if_neg h2]
        simp [h1, h2]
  · intro hf
    by_cases h1 : (r.players.length : Int) ≥ r.maxPlayers
    · have hfull : r.isFull = true := decide_eq_true h1
      have haddp : (r.addPlayer u now).1 = r := by
        unfold Room.addPlayer
        rw [if_pos h1]
      exact ⟨haddp,
        by simp [handleJoinRoomResult, roomManagerJoinRoom, hfull]⟩
    · by_cases h2 : (r.getPlayer u.id).isSome = true
      · have hfull : r.isFull = false := decide_eq_false h1
        have haddp : (r.addPlayer u now).1 = r := by
          unfold Room.addPlayer
          rw [if_neg h1, if_pos h2]
        have haddf : (r.addPlayer u now).2 = false := by
          unfold Room.addPlayer
          rw [if_neg h1, if_pos h2]
        exact ⟨haddp,
          by simp [handleJoinRoomResult, roomManagerJoinRoom, hfull, haddf]⟩
      · exfalso
        unfold Room.addPlayer at hf
        rw [if_neg h1, if_neg h2] at hf
        exact Bool.false_ne_true hf.symm
  · intro ht
    by_cases h1 : (r.players.length : Int) ≥ r.maxPlayers
    · exfalso
      unfold Room.addPlayer at ht
      rw [if_pos h1] at ht
      exact Bool.false_ne_true ht
    · by_cases h2 : (r.getPlayer u.id).isSome = true
      · exfalso
        unfold Room.addPlayer at ht
        rw [if_neg h1, if_pos h2] at ht
        exact Bool.false_ne_true ht
      · unfold Room.addPlayer
        rw [if_neg h1, if_neg h2]
        exact ⟨rfl, rfl⟩
  · simp only [RoomReachable] at hr
    induction hr with
    | refl =>
      rw [h0.2.2.2.1]
      simpa using hmax
    | tail hsteps hstep ih => exact roomStep_capacity hstep ih

/-- Witness for C7: in the fresh 4-capacity room, Bob's join succeeds
(appending him) and the one-join reachable state respects capacity. -/
theorem C7_join_capacity_witness :
    (((freshRoom.addPlayer bobU 0).2 = false ↔
      (freshRoom.players.length : Int) ≥ freshRoom.maxPlayers ∨
        (freshRoom.getPlayer bobU.id).isSome = true) ∧
    ((freshRoom.addPlayer bobU 0).2 = false →
      (freshRoom.addPlayer bobU 0).1 = freshRoom ∧
      (handleJoinRoomResult freshRoom bobU 0).2 = some "JOIN_FAILED" ∧
      (handleJoinRoomResult freshRoom bobU 0).1 = freshRoom) ∧
    ((freshRoom.addPlayer bobU 0).2 = true →
      (freshRoom.addPlayer bobU 0).1.players = freshRoom.players ++ [bobU] ∧
      (freshRoom.addPlayer bobU 0).1.playerOrder
        = freshRoom.playerOrder ++ [bobU.id]) ∧
    (((freshRoom.addPlayer aliceU 0).1.players.length : Int)
      ≤ (freshRoom.addPlayer aliceU 0).1.maxPlayers)) :=
  C7_join_capacity defaultPoints freshRoom bobU 0 freshRoom
    (freshRoom.addPlayer aliceU 0).1
    ⟨rfl, rfl, rfl, rfl, rfl, rfl, rfl, rfl⟩ (by decide)
    (Relation.ReflTransGen.single (RoomStep.addPlayer freshRoom aliceU 0))

/-- C8: in every room reachable from a fresh room, `guessedPlayers` has
no duplicates and never contains the current drawer; `AddGuess` refuses a
uid already present (returning the room unchanged with `false`), and
`ValidateGuess` rejects the current drawer with the zero-valued incorrect
result before any insertion. -/
theorem C8_guessed_players_invariant (cfg : PointsConfig) (r0 rr : Room)
    (h0 : r0.isFresh) (hr : RoomReachable cfg r0 rr) :
    (rr.guessedPlayers.Nodup ∧
      ¬ rr.currentDrawer ∈ rr.guessedPlayers) ∧
    (∀ (s : Room) (uid : String) (now : Int), uid ∈ s.guessedPlayers →
      s.addGuess uid now = (s, false)) ∧
    (∀ (s : Room) (guess : String) (now : Int),
      validateGuess cfg s s.currentDrawer guess now
        = (s, GuessResultData.incorrect)) := by
  refine ⟨?_, ?_, ?_⟩
  · simp only [RoomReachable] at hr
    induction hr with
    | refl =>
      rw [h0.2.2.2.2.2.2.1]
      exact ⟨List.nodup_nil, List.not_mem_nil _⟩
    | tail hsteps hstep ih => exact roomStep_guessed hstep ih
  · intro s uid now hmem
    unfold Room.addGuess
    rw [if_pos hmem]
  · intro s guess now
    simp only [validateGuess]
    cases hfind : s.getPlayer s.currentDrawer with
    | none => rfl
    | some user => simp

/-- Witness for C8: the invariant after Bob joins the fresh room, plus
the duplicate-guess refusal and drawer rejection instantiated there. -/
theorem C8_guessed_players_invariant_witness :
    (((freshRoom.addPlayer bobU 1).1.guessedPlayers.Nodup ∧
      ¬ (freshRoom.addPlayer bobU 1).1.currentDrawer
          ∈ (freshRoom.addPlayer bobU 1).1.guessedPlayers) ∧
    (∀ (s : Room) (uid : String) (now : Int), uid ∈ s.guessedPlayers →
      s.addGuess uid now = (s, false)) ∧
    (∀ (s : Room) (guess : String) (now : Int),
      validateGuess defaultPoints s s.currentDrawer guess now
        = (s, GuessResultData.incorrect))) :=
  C8_guessed_players_invariant defaultPoints freshRoom
    (freshRoom.addPlayer bobU 1).1
    ⟨rfl, rfl, rfl, rfl, rfl, rfl, rfl, rfl⟩
    (Relation.ReflTransGen.single (RoomStep.addPlayer freshRoom bobU 1))

end DoodleDash
